import Mathlib

/-!
Verification development for the tekton repository: the annotated network
graph and the connectivity synthesizer (subnet/address allocation).

The repository sources ship the tests (`tests/test_graph.py`,
`tests/test_connected.py`), the attribute payloads (`tekton/bgp.py`) and the
downstream consumers (`tekton/cisco.py`, `tekton/gns3.py`), but the modules
`tekton/graph.py` (class NetworkGraph) and `tekton/connected.py`
(class ConnectedSyn) are not present.  Those two modules are therefore
modelled from the specification (spec.md sections 3, 4.1, 4.2, 4.3 and 7),
kept consistent with the behaviour pinned by the shipped tests, which are
authoritative where they overlap with the spec.

Addresses are IPv4 values embedded as natural numbers below 2^32 together
with a prefix length; only the IPv4 side of the subnet pool is modelled
(the spec states IPv6 follows symmetric logic and no claim touches IPv6).
-/

namespace Tekton

/-- Error kinds of the graph builders and the synthesizer (spec section 7). -/
inductive Err
  | ValueError
  | DuplicateNodeError
  | ValueAlreadySetError
  | NotValidSubnetsError
  | DuplicateAddressError
  | InterfaceIsDownError
  | StructuralError
  deriving DecidableEq

/-- Association list lookup, first occurrence wins. -/
def aGet {α β : Type} [DecidableEq α] : List (α × β) → α → Option β
  | [], _ => none
  | (k, v) :: rest, k0 => if k = k0 then some v else aGet rest k0

/-- Update the first occurrence of a key with a function; no-op if absent. -/
def aUpdF {α β : Type} [DecidableEq α] : List (α × β) → α → (β → β) → List (α × β)
  | [], _, _ => []
  | (k, v) :: rest, k0, f => if k = k0 then (k, f v) :: rest else (k, v) :: aUpdF rest k0 f

/-- Overwrite the value stored at a key (first occurrence); no-op if absent. -/
def aSet {α β : Type} [DecidableEq α] (l : List (α × β)) (k : α) (w : β) : List (α × β) :=
  aUpdF l k (fun _ => w)

/-- Vertex kinds, mirroring graph.VERTEXTYPE. -/
inductive VERTEXTYPE
  | ROUTER
  | PEER
  | NETWORK
  deriving DecidableEq

/-- Edge kinds, mirroring graph.EDGETYPE. -/
inductive EDGETYPE
  | ROUTER
  | PEER
  | NETWORK
  deriving DecidableEq

/-- A concrete IPv4 interface value: host address and prefix length
(the shape of Python's `ipaddress.ip_interface`). -/
structure IpInterface where
  ip : Nat
  plen : Nat
  deriving DecidableEq

/-- Number of addresses in the network of a given prefix length. -/
def mask (p : Nat) : Nat := 2 ^ (32 - p)

/-- The network (base) address of an interface value. -/
def netBase (a : IpInterface) : Nat := a.ip / mask a.plen * mask a.plen

/-- Two interface values lie in the same network: equal prefix length and
equal network address. -/
def sameNetwork (a b : IpInterface) : Prop := a.plen = b.plen ∧ netBase a = netBase b

instance (a b : IpInterface) : Decidable (sameNetwork a b) := by
  unfold sameNetwork; infer_instance

/-- The tri-state value an interface address may hold (spec section 3):
Concrete, Unset (VALUENOTSET) or Symbolic (an opaque solver handle). -/
inductive AddrValue
  | Concrete (a : IpInterface)
  | Unset
  | Symbolic (h : Nat)
  deriving DecidableEq

/-- Value stored as a BGP router ID: VALUENOTSET or a concrete value
(Python stores ints or `IPv4Address` objects; both embed as Nat). -/
inductive RIdVal
  | Unset
  | Concrete (n : Nat)
  deriving DecidableEq

/-- An interface record: address, shutdown flag, free-text description. -/
structure Iface where
  addr : AddrValue
  is_shutdown : Bool
  description : String
  deriving DecidableEq

/-- Per-node payload: kind plus the attributes the claims touch.  The
BGP neighbor table maps a neighbor name to the optionally recorded peering
interface (an interface of the neighbor), per cisco.py's
`get_bgp_neighbor_iface(node, neighbor)` usage. -/
structure NodeData where
  vtype : VERTEXTYPE
  ifaces : List (String × Iface)
  loopbacks : List (String × Iface)
  bgp_asnum : Option Nat
  bgp_router_id : Option RIdVal
  bgp_neighbors : List (String × Option String)
  deriving DecidableEq

def NodeData.withIfaces (nd : NodeData) (l : List (String × Iface)) : NodeData :=
  ⟨nd.vtype, l, nd.loopbacks, nd.bgp_asnum, nd.bgp_router_id, nd.bgp_neighbors⟩

def NodeData.withLoopbacks (nd : NodeData) (l : List (String × Iface)) : NodeData :=
  ⟨nd.vtype, nd.ifaces, l, nd.bgp_asnum, nd.bgp_router_id, nd.bgp_neighbors⟩

def NodeData.withAsnum (nd : NodeData) (a : Option Nat) : NodeData :=
  ⟨nd.vtype, nd.ifaces, nd.loopbacks, a, nd.bgp_router_id, nd.bgp_neighbors⟩

def NodeData.withRId (nd : NodeData) (r : Option RIdVal) : NodeData :=
  ⟨nd.vtype, nd.ifaces, nd.loopbacks, nd.bgp_asnum, r, nd.bgp_neighbors⟩

def NodeData.withNeighbors (nd : NodeData) (l : List (String × Option String)) : NodeData :=
  ⟨nd.vtype, nd.ifaces, nd.loopbacks, nd.bgp_asnum, nd.bgp_router_id, l⟩

/-- Directed edge payload: kind and the bound source-side interface name. -/
structure EdgeData where
  etype : EDGETYPE
  iface : Option String
  deriving DecidableEq

/-- Modelled from the spec: the annotated graph of `tekton/graph.py`
(absent from the sources).  Nodes and directed edges in insertion order,
as the spec's deterministic iteration requires. -/
structure NetworkGraph where
  nodes : List (String × NodeData)
  edges : List ((String × String) × EdgeData)
  deriving DecidableEq

def NetworkGraph.empty : NetworkGraph := ⟨[], []⟩

def getNode (g : NetworkGraph) (n : String) : Option NodeData := aGet g.nodes n

def updNode (g : NetworkGraph) (n : String) (f : NodeData → NodeData) : NetworkGraph :=
  ⟨aUpdF g.nodes n f, g.edges⟩

def isRouterType : VERTEXTYPE → Bool
  | .ROUTER => true
  | .PEER => true
  | .NETWORK => false

def isLocalType : VERTEXTYPE → Bool
  | .ROUTER => true
  | _ => false

def isPeerType : VERTEXTYPE → Bool
  | .PEER => true
  | _ => false

def isNetworkType : VERTEXTYPE → Bool
  | .NETWORK => true
  | _ => false

/-- A Peer is a Router specialization, so `is_router` holds for both
ROUTER and PEER vertices (pinned by tests/test_graph.py test_add_peer). -/
def NetworkGraph.is_router (g : NetworkGraph) (n : String) : Bool :=
  match getNode g n with
  | some nd => isRouterType nd.vtype
  | none => false

def NetworkGraph.is_peer (g : NetworkGraph) (n : String) : Bool :=
  match getNode g n with
  | some nd => isPeerType nd.vtype
  | none => false

def NetworkGraph.is_network (g : NetworkGraph) (n : String) : Bool :=
  match getNode g n with
  | some nd => isNetworkType nd.vtype
  | none => false

def NetworkGraph.is_local_router (g : NetworkGraph) (n : String) : Bool :=
  match getNode g n with
  | some nd => isLocalType nd.vtype
  | none => false

def NetworkGraph.local_routers_iter (g : NetworkGraph) : List String :=
  (g.nodes.filter (fun e => isLocalType e.2.vtype)).map (fun e => e.1)

def NetworkGraph.routers_iter (g : NetworkGraph) : List String :=
  (g.nodes.filter (fun e => isRouterType e.2.vtype)).map (fun e => e.1)

def NetworkGraph.peers_iter (g : NetworkGraph) : List String :=
  (g.nodes.filter (fun e => isPeerType e.2.vtype)).map (fun e => e.1)

def NetworkGraph.networks_iter (g : NetworkGraph) : List String :=
  (g.nodes.filter (fun e => isNetworkType e.2.vtype)).map (fun e => e.1)

def newNode (t : VERTEXTYPE) : NodeData := ⟨t, [], [], none, none, []⟩

/-- Modelled from the spec: the generic node constructor.  Refusing a node
without an explicit vertex type is pinned by tests/test_graph.py
test_add_node (`add_node('R1')` raises ValueError); an existing id raises
DuplicateNodeError (spec section 4.1). -/
def NetworkGraph.add_node (g : NetworkGraph) (n : String) (t : Option VERTEXTYPE) :
    Except Err NetworkGraph :=
  match t with
  | none => .error .ValueError
  | some ty =>
    match getNode g n with
    | some _ => .error .DuplicateNodeError
    | none => .ok ⟨g.nodes ++ [(n, newNode ty)], g.edges⟩

def NetworkGraph.add_router (g : NetworkGraph) (n : String) : Except Err NetworkGraph :=
  g.add_node n (some .ROUTER)

def NetworkGraph.add_peer (g : NetworkGraph) (n : String) : Except Err NetworkGraph :=
  g.add_node n (some .PEER)

def NetworkGraph.add_network (g : NetworkGraph) (n : String) : Except Err NetworkGraph :=
  g.add_node n (some .NETWORK)

/-- Modelled from the spec: the generic edge constructor.  Refusing an edge
without an explicit edge type is pinned by tests/test_graph.py
test_add_edge; re-adding an existing edge with a type updates its kind and
keeps the bound interface (networkx attribute-merge behaviour). -/
def NetworkGraph.add_edge (g : NetworkGraph) (u v : String) (t : Option EDGETYPE) :
    Except Err NetworkGraph :=
  match t with
  | none => .error .ValueError
  | some ty =>
    match aGet g.edges (u, v) with
    | some ed => .ok ⟨g.nodes, aSet g.edges (u, v) ⟨ty, ed.iface⟩⟩
    | none => .ok ⟨g.nodes, g.edges ++ [((u, v), ⟨ty, none⟩)]⟩

/-- Modelled from the spec: a router edge requires both endpoints to exist
and be routers (spec section 4.1). -/
def NetworkGraph.add_router_edge (g : NetworkGraph) (u v : String) : Except Err NetworkGraph :=
  match getNode g u, getNode g v with
  | some a, some b =>
    if isRouterType a.vtype && isRouterType b.vtype then g.add_edge u v (some .ROUTER)
    else .error .StructuralError
  | _, _ => .error .StructuralError

/-- Modelled from the spec: a peer edge requires both endpoints to be
routers with at least one Peer (spec section 4.1). -/
def NetworkGraph.add_peer_edge (g : NetworkGraph) (u v : String) : Except Err NetworkGraph :=
  match getNode g u, getNode g v with
  | some a, some b =>
    if isRouterType a.vtype && isRouterType b.vtype &&
        (isPeerType a.vtype || isPeerType b.vtype) then g.add_edge u v (some .PEER)
    else .error .StructuralError
  | _, _ => .error .StructuralError

def NetworkGraph.get_iface (g : NetworkGraph) (n i : String) : Option Iface :=
  match getNode g n with
  | some nd => aGet nd.ifaces i
  | none => none

def NetworkGraph.get_iface_addr (g : NetworkGraph) (n i : String) : Option AddrValue :=
  match g.get_iface n i with
  | some f => some f.addr
  | none => none

/-- Modelled from the spec: creating an interface on an existing node,
initially VALUENOTSET and not bound to any edge. -/
def NetworkGraph.add_iface (g : NetworkGraph) (n i : String) (is_shutdown : Bool) :
    Except Err NetworkGraph :=
  match getNode g n with
  | none => .error .StructuralError
  | some nd =>
    match aGet nd.ifaces i with
    | some _ => .error .StructuralError
    | none =>
      .ok (updNode g n
        (fun nd => nd.withIfaces (nd.ifaces ++ [(i, ⟨.Unset, is_shutdown, ""⟩)])))

/-- Unconditional interface-address write (internal helper used by the
setter and by the synthesizer once the write-once check has passed). -/
def setAddrRaw (g : NetworkGraph) (n i : String) (a : AddrValue) : NetworkGraph :=
  updNode g n
    (fun nd => nd.withIfaces (aUpdF nd.ifaces i (fun f => ⟨a, f.is_shutdown, f.description⟩)))

/-- Modelled from the spec: write-once address setter (spec section 4.1):
fails with ValueAlreadySetError if the address is already Concrete and the
new value differs; re-setting the identical value is a no-op success. -/
def NetworkGraph.set_iface_addr (g : NetworkGraph) (n i : String) (v : AddrValue) :
    Except Err NetworkGraph :=
  match g.get_iface n i with
  | none => .error .StructuralError
  | some f =>
    match f.addr with
    | .Concrete c => if v = .Concrete c then .ok g else .error .ValueAlreadySetError
    | _ => .ok (setAddrRaw g n i v)

def NetworkGraph.set_iface_description (g : NetworkGraph) (n i : String) (d : String) :
    Except Err NetworkGraph :=
  match g.get_iface n i with
  | none => .error .StructuralError
  | some _ =>
    .ok (updNode g n
      (fun nd => nd.withIfaces (aUpdF nd.ifaces i (fun f => ⟨f.addr, f.is_shutdown, d⟩))))

def NetworkGraph.get_edge_iface (g : NetworkGraph) (u v : String) : Option String :=
  match aGet g.edges (u, v) with
  | some ed => ed.iface
  | none => none

/-- Modelled from the spec: binds a directed edge to one of the source
node's interfaces (spec section 4.1). -/
def NetworkGraph.set_edge_iface (g : NetworkGraph) (u v i : String) : Except Err NetworkGraph :=
  match aGet g.edges (u, v) with
  | none => .error .StructuralError
  | some ed => .ok ⟨g.nodes, aSet g.edges (u, v) ⟨ed.etype, some i⟩⟩

def getLoopback (g : NetworkGraph) (n i : String) : Option Iface :=
  match getNode g n with
  | some nd => aGet nd.loopbacks i
  | none => none

/-- Create a loopback interface with an Unset address (used by the
synthesizer's iBGP-mesh completion). -/
def addLoopbackRaw (g : NetworkGraph) (n i : String) : NetworkGraph :=
  updNode g n (fun nd => nd.withLoopbacks (nd.loopbacks ++ [(i, ⟨.Unset, false, ""⟩)]))

/-- Unconditional loopback-address write (internal helper). -/
def setLoopbackAddrRaw (g : NetworkGraph) (n i : String) (a : AddrValue) : NetworkGraph :=
  updNode g n
    (fun nd => nd.withLoopbacks (aUpdF nd.loopbacks i (fun f => ⟨a, f.is_shutdown, f.description⟩)))

def NetworkGraph.set_bgp_asnum (g : NetworkGraph) (n : String) (a : Nat) :
    Except Err NetworkGraph :=
  match getNode g n with
  | none => .error .StructuralError
  | some _ => .ok (updNode g n (fun nd => nd.withAsnum (some a)))

def NetworkGraph.get_bgp_asnum (g : NetworkGraph) (n : String) : Option Nat :=
  match getNode g n with
  | some nd => nd.bgp_asnum
  | none => none

def NetworkGraph.get_bgp_router_id (g : NetworkGraph) (n : String) : Option RIdVal :=
  match getNode g n with
  | some nd => nd.bgp_router_id
  | none => none

/-- Modelled from the spec: `graph.py` is absent; the spec (section 4.1)
prescribes a write-once discipline for protocol-significant BGP attributes,
but the repository's own test (tests/test_graph.py test_router_id, which is
in the sources and is authoritative) pins the opposite behaviour: successive
`set_bgp_router_id` calls with different values succeed and the getter
returns the last value set.  The test's behaviour is modelled here. -/
def NetworkGraph.set_bgp_router_id (g : NetworkGraph) (n : String) (v : RIdVal) :
    Except Err NetworkGraph :=
  match getNode g n with
  | none => .error .StructuralError
  | some _ => .ok (updNode g n (fun nd => nd.withRId (some v)))

def addNeighborOne (g : NetworkGraph) (n m : String) : NetworkGraph :=
  updNode g n
    (fun nd =>
      match aGet nd.bgp_neighbors m with
      | some _ => nd
      | none => nd.withNeighbors (nd.bgp_neighbors ++ [(m, none)]))

/-- Modelled from the spec: declares a BGP adjacency between two existing
nodes, in both neighbor tables, with no peering interface recorded yet. -/
def NetworkGraph.add_bgp_neighbor (g : NetworkGraph) (n m : String) : Except Err NetworkGraph :=
  match getNode g n, getNode g m with
  | some _, some _ => .ok (addNeighborOne (addNeighborOne g n m) m n)
  | _, _ => .error .StructuralError

/-- The peering interface recorded in `p`'s neighbor table for neighbor `w`
(an interface of `w`), or none. -/
def entryGet (g : NetworkGraph) (p w : String) : Option String :=
  match getNode g p with
  | some nd =>
    match aGet nd.bgp_neighbors w with
    | some o => o
    | none => none
  | none => none

/-- Record `nm` as the peering interface for the adjacency `(p, w)` in `p`'s
neighbor table, only if none is recorded yet. -/
def recordNeighborIface (g : NetworkGraph) (p w nm : String) : NetworkGraph :=
  match entryGet g p w with
  | some _ => g
  | none => updNode g p (fun nd => nd.withNeighbors (aSet nd.bgp_neighbors w (some nm)))

/-- Modelled from the spec: base of the IPv4 subnet pool (section 4.2 leaves
the constant implementation-chosen; 10.0.0.0 is used). -/
def POOLBASE : Nat := 167772160

/-- The k-th pool block: /31 blocks (two usable hosts) carved monotonically
from the base range. -/
def blockBase (k : Nat) : Nat := POOLBASE + 2 * k

/-- The two usable host addresses of a network: for a /31 the two network
addresses themselves, otherwise the first two hosts after the base. -/
def hostsOf (base p : Nat) : Nat × Nat :=
  if p = 31 then (base, base + 1) else (base + 1, base + 2)

/-- Deterministic choice of a host address in the network of `a` different
from `a.ip` (spec section 4.3 step 2 leaves the tie-break to the
implementation, requiring only a consistent rule). -/
def otherHost (a : IpInterface) : Nat :=
  let h := hostsOf (netBase a) a.plen
  if a.ip = h.1 then h.2 else h.1

/-- The global address registry: every (node, interface) to address pair
finalized by the current synthesis run (spec section 3). -/
abbrev Registry := List ((String × String) × IpInterface)

/-- Modelled from the spec (section 4.3 step 3): inserting a pair whose
address already exists under a different key raises DuplicateAddressError;
re-inserting an identical pair is a no-op. -/
def registerPair (reg : Registry) (k : String × String) (a : IpInterface) :
    Except Err Registry :=
  if (k, a) ∈ reg then .ok reg
  else if ∃ e ∈ reg, e.2 = a then .error .DuplicateAddressError
  else .ok (reg ++ [(k, a)])

/-- Synthesizer state: the graph being mutated, the global address registry
and the pool cursor. -/
structure SynState where
  g : NetworkGraph
  registry : Registry
  pool : Nat
  deriving DecidableEq

/-- Register the two endpoint pairs of one link and commit the new graph
and pool cursor; a failed registration discards the link's writes. -/
def regTwo (st : SynState) (g2 : NetworkGraph) (pool2 : Nat)
    (k1 : String × String) (a1 : IpInterface)
    (k2 : String × String) (a2 : IpInterface) : Except Err SynState :=
  match registerPair st.registry k1 a1 with
  | .error e => .error e
  | .ok r1 =>
    match registerPair r1 k2 a2 with
    | .error e => .error e
    | .ok r2 => .ok ⟨g2, r2, pool2⟩

/-- Modelled from the spec (section 4.3 steps 1-3): subnet resolution and
endpoint assignment for one link whose endpoint interfaces are `fu`, `fv`.
Both Concrete: validate same network (NotValidSubnetsError on mismatch) and
distinct hosts (DuplicateAddressError on identity).  Exactly one Concrete:
derive the subnet from it (a subnet must bear two hosts, so prefixes longer
than /31 cannot complete a link).  Neither Concrete: allocate a fresh /31
from the pool.  A Symbolic endpoint is owned by an external solver and is
passed through untouched. -/
def resolveLink (st : SynState) (u v iu iv : String) (fu fv : Iface) : Except Err SynState :=
  match fu.addr, fv.addr with
  | .Symbolic _, _ => .ok st
  | _, .Symbolic _ => .ok st
  | .Concrete a, .Concrete b =>
    if sameNetwork a b then
      if a.ip = b.ip then .error .DuplicateAddressError
      else regTwo st st.g st.pool (u, iu) a (v, iv) b
    else .error .NotValidSubnetsError
  | .Concrete a, .Unset =>
    if a.plen ≤ 31 then
      regTwo st (setAddrRaw st.g v iv (.Concrete ⟨otherHost a, a.plen⟩)) st.pool
        (u, iu) a (v, iv) ⟨otherHost a, a.plen⟩
    else .error .NotValidSubnetsError
  | .Unset, .Concrete b =>
    if b.plen ≤ 31 then
      regTwo st (setAddrRaw st.g u iu (.Concrete ⟨otherHost b, b.plen⟩)) st.pool
        (u, iu) ⟨otherHost b, b.plen⟩ (v, iv) b
    else .error .NotValidSubnetsError
  | .Unset, .Unset =>
    regTwo st
      (setAddrRaw (setAddrRaw st.g u iu (.Concrete ⟨blockBase st.pool, 31⟩))
        v iv (.Concrete ⟨blockBase st.pool + 1, 31⟩))
      (st.pool + 1)
      (u, iu) ⟨blockBase st.pool, 31⟩ (v, iv) ⟨blockBase st.pool + 1, 31⟩

/-- Modelled from the spec (section 4.3): processing of one undirected link
given as its first directed edge (u, v).  A self-loop is a malformed graph.
A shutdown endpoint raises InterfaceIsDownError in full mode and leaves the
link untouched in lazy mode (section 4.3 step 4); a link lacking bound
interfaces is StructuralError when required (full mode) and skipped in lazy
mode (section 7, and tests/test_connected.py test_one_extra). -/
def procLink (full : Bool) (st : SynState) (u v : String) : Except Err SynState :=
  if u = v then .error .StructuralError
  else
    match st.g.get_edge_iface u v, st.g.get_edge_iface v u with
    | some iu, some iv =>
      match st.g.get_iface u iu, st.g.get_iface v iv with
      | some fu, some fv =>
        if fu.is_shutdown || fv.is_shutdown then
          if full then .error .InterfaceIsDownError else .ok st
        else resolveLink st u v iu iv fu fv
      | _, _ => if full then .error .StructuralError else .ok st
    | _, _ => if full then .error .StructuralError else .ok st

/-- Edge skeleton: edge keys and kinds, in order. -/
def edgeSkel (g : NetworkGraph) : List ((String × String) × EDGETYPE) :=
  g.edges.map (fun e => (e.1, e.2.etype))

/-- Collect the router/peer links in deterministic edge order, keeping the
first directed edge of each opposite pair (spec section 4.3). -/
def linkScan : List ((String × String) × EDGETYPE) → List (String × String) →
    List (String × String)
  | [], _ => []
  | (e, t) :: rest, seen =>
    match t with
    | .NETWORK => linkScan rest seen
    | _ =>
      if (e.2, e.1) ∈ seen then linkScan rest (e :: seen)
      else e :: linkScan rest (e :: seen)

def linkList (g : NetworkGraph) : List (String × String) := linkScan (edgeSkel g) []

def procLinks (full : Bool) : List (String × String) → SynState → Except Err SynState
  | [], st => .ok st
  | p :: rest, st =>
    match procLink full st p.1 p.2 with
    | .error e => .error e
    | .ok st1 => procLinks full rest st1

/-- Node skeleton: kind, AS number and neighbor-table keys, the data the
mesh-pair enumeration depends on. -/
def ndSkel (nd : NodeData) : VERTEXTYPE × Option Nat × List String :=
  (nd.vtype, nd.bgp_asnum, nd.bgp_neighbors.map Prod.fst)

def nodeSkel (g : NetworkGraph) : List (String × (VERTEXTYPE × Option Nat × List String)) :=
  g.nodes.map (fun e => (e.1, ndSkel e.2))

/-- Position of the first occurrence of a key (used to order mesh pairs). -/
def nodeIdx {β : Type} : List (String × β) → String → Nat
  | [], _ => 0
  | (k, _) :: rest, n => if k = n then 0 else nodeIdx rest n + 1

/-- Condition for `(u, v)` to need iBGP mesh completion, on the skeletons:
`v` is a local router, both carry the same AS number, no direct link exists
in either direction, and `u` comes before `v` so each unordered pair is
handled once (spec section 4.3 step 5). -/
def meshCondSk (ns : List (String × (VERTEXTYPE × Option Nat × List String)))
    (es : List ((String × String) × EDGETYPE)) (au : Option Nat) (u v : String) : Bool :=
  match aGet ns v with
  | some sk =>
    isLocalType sk.1 &&
    (match au, sk.2.1 with
     | some x, some y => decide (x = y)
     | _, _ => false) &&
    (aGet es (u, v)).isNone && (aGet es (v, u)).isNone &&
    decide (nodeIdx ns u < nodeIdx ns v)
  | none => false

def meshPairsSk (ns : List (String × (VERTEXTYPE × Option Nat × List String)))
    (es : List ((String × String) × EDGETYPE)) : List (String × String) :=
  (ns.filter (fun e => isLocalType e.2.1)).flatMap
    (fun e => (e.2.2.2.filter (fun v => meshCondSk ns es e.2.2.1 e.1 v)).map
      (fun v => (e.1, v)))

/-- The same-AS local-router pairs with a declared BGP adjacency but no
direct link (spec section 4.3 step 5). -/
def meshPairs (g : NetworkGraph) : List (String × String) :=
  meshPairsSk (nodeSkel g) (edgeSkel g)

/-- Finish one side of a mesh adjacency once the loopback record `f` named
`nm` on `w` is at hand: allocate and register its address if Unset, register
if Concrete, pass through if Symbolic; then record the peering interface in
`p`'s table if none was recorded. -/
def meshSideGo (st : SynState) (w p nm : String) (f : Iface) : Except Err SynState :=
  match f.addr with
  | .Symbolic _ => .ok ⟨recordNeighborIface st.g p w nm, st.registry, st.pool⟩
  | .Concrete a =>
    match registerPair st.registry (w, nm) a with
    | .error e => .error e
    | .ok r => .ok ⟨recordNeighborIface st.g p w nm, r, st.pool⟩
  | .Unset =>
    match registerPair st.registry (w, nm) ⟨blockBase st.pool, 31⟩ with
    | .error e => .error e
    | .ok r =>
      .ok ⟨recordNeighborIface (setLoopbackAddrRaw st.g w nm
          (.Concrete ⟨blockBase st.pool, 31⟩)) p w nm, r, st.pool + 1⟩

/-- Modelled from the spec (section 4.3 step 5): ensure node `w` offers a
loopback for its iBGP adjacency with `p`: use the recorded peering interface
name or the default loopback name, creating the loopback if absent. -/
def meshSide (lo : String) (st : SynState) (w p : String) : Except Err SynState :=
  match getNode st.g w with
  | none => .ok st
  | some nd =>
    match aGet nd.loopbacks ((entryGet st.g p w).getD lo) with
    | some f => meshSideGo st w p ((entryGet st.g p w).getD lo) f
    | none =>
      meshSideGo ⟨addLoopbackRaw st.g w ((entryGet st.g p w).getD lo), st.registry, st.pool⟩
        w p ((entryGet st.g p w).getD lo) ⟨.Unset, false, ""⟩

def meshEnsure (lo : String) (st : SynState) (u v : String) : Except Err SynState :=
  match meshSide lo st u v with
  | .error e => .error e
  | .ok st1 => meshSide lo st1 v u

def meshRun (lo : String) : List (String × String) → SynState → Except Err SynState
  | [], st => .ok st
  | p :: rest, st =>
    match meshEnsure lo st p.1 p.2 with
    | .error e => .error e
    | .ok st1 => meshRun lo rest st1

/-- Modelled from the spec: `ConnectedSyn(graph, full, default_ibgp_lo)
.synthesize()` of `tekton/connected.py` (absent from the sources).  Walks
the router/peer links in deterministic edge order resolving each one, then
in full mode closes the iBGP full-mesh loopback requirements (spec section
4.3).  Success returns the final state (graph, registry, pool cursor); the
first validation failure aborts the call with its error. -/
def synthesize (g : NetworkGraph) (full : Bool) (default_ibgp_lo : String) :
    Except Err SynState :=
  match procLinks full (linkList g) ⟨g, [], 0⟩ with
  | .error e => .error e
  | .ok st1 => if full then meshRun default_ibgp_lo (meshPairs st1.g) st1 else .ok st1

/-- An address value that is not solver-owned. -/
def notSym : AddrValue → Bool
  | .Symbolic _ => false
  | _ => true

/-- A link the synthesizer will actually resolve (not skipped): both
directed edges carry bound, existing interfaces, neither endpoint is shut
down, and neither is Symbolic. -/
def linkActive (g : NetworkGraph) (u v : String) : Bool :=
  match g.get_edge_iface u v, g.get_edge_iface v u with
  | some iu, some iv =>
    match g.get_iface u iu, g.get_iface v iv with
    | some fu, some fv => !fu.is_shutdown && !fv.is_shutdown && notSym fu.addr && notSym fv.addr
    | _, _ => false
  | _, _ => false

/-- A fully resolved link: both bound endpoint interfaces hold Concrete
addresses in the same network with distinct host addresses. -/
def linkResolved (g : NetworkGraph) (u v : String) : Prop :=
  ∃ iu iv au av,
    g.get_edge_iface u v = some iu ∧ g.get_edge_iface v u = some iv ∧
    g.get_iface_addr u iu = some (.Concrete au) ∧
    g.get_iface_addr v iv = some (.Concrete av) ∧
    sameNetwork au av ∧ au.ip ≠ av.ip

/-- Evolution of one address value across a synthesis step: unchanged, or
filled in from Unset to Concrete. -/
def addrMono (a b : AddrValue) : Prop :=
  a = b ∨ (a = .Unset ∧ ∃ c, b = .Concrete c)

/-- What one successful synthesizer step may do to the graph: edges are
untouched, node skeletons are untouched, interface addresses only move
Unset to Concrete with flags intact, loopbacks persist with the same
monotonicity, and a recorded peering entry persists; a peering entry can
only be newly recorded as the default loopback name `lo`. -/
structure gStep (lo : String) (G G2 : NetworkGraph) : Prop where
  edges_eq : G2.edges = G.edges
  skel_eq : nodeSkel G2 = nodeSkel G
  iface_mono : ∀ n i f, G.get_iface n i = some f →
    ∃ f2, G2.get_iface n i = some f2 ∧ f2.is_shutdown = f.is_shutdown ∧ addrMono f.addr f2.addr
  lb_mono : ∀ n i f, getLoopback G n i = some f →
    ∃ f2, getLoopback G2 n i = some f2 ∧ addrMono f.addr f2.addr
  entry_step : ∀ p w, entryGet G2 p w = entryGet G p w ∨
    (entryGet G p w = none ∧ entryGet G2 p w = some lo)

/-- A link in its terminal state after a successful full-mode run: bound
interfaces, no shutdown, and either both Concrete, valid and registered in
`M`, or exempt because one side is Symbolic. -/
def linkSettled (G : NetworkGraph) (M : Registry) (u v : String) : Prop :=
  u ≠ v ∧ ∃ iu iv fu fv,
    G.get_edge_iface u v = some iu ∧ G.get_edge_iface v u = some iv ∧
    G.get_iface u iu = some fu ∧ G.get_iface v iv = some fv ∧
    fu.is_shutdown = false ∧ fv.is_shutdown = false ∧
    ((∃ au av, fu.addr = .Concrete au ∧ fv.addr = .Concrete av ∧
        sameNetwork au av ∧ au.ip ≠ av.ip ∧
        ((u, iu), au) ∈ M ∧ ((v, iv), av) ∈ M) ∨
      (∃ h, fu.addr = .Symbolic h) ∨ (∃ h, fv.addr = .Symbolic h))

/-- No write happens when recording a peering interface for `(p, w)`:
either an entry exists, or `p` is absent, or `w` is not in `p`'s table. -/
def recNoop (G : NetworkGraph) (p w : String) : Prop :=
  (∃ i, entryGet G p w = some i) ∨ getNode G p = none ∨
    (∀ nd, getNode G p = some nd → aGet nd.bgp_neighbors w = none)

/-- One side of a mesh adjacency in its terminal state: the node is absent,
or its adjacency loopback exists and is Concrete and registered in `M`, or
Symbolic; and recording the entry again is a no-op. -/
def sideSettled (lo : String) (G : NetworkGraph) (M : Registry) (w p : String) : Prop :=
  getNode G w = none ∨
  (recNoop G p w ∧
    ∃ f, getLoopback G w ((entryGet G p w).getD lo) = some f ∧
      ((∃ a, f.addr = .Concrete a ∧ ((w, (entryGet G p w).getD lo), a) ∈ M) ∨
        (∃ h, f.addr = .Symbolic h)))

/-- Sequential composition for graph-building chains (Python raises
propagate). -/
def bindE {α β : Type} (x : Except Err α) (f : α → Except Err β) : Except Err β :=
  match x with
  | .error e => .error e
  | .ok a => f a

def orEmpty (x : Except Err NetworkGraph) : NetworkGraph :=
  match x with
  | .ok g => g
  | .error _ => NetworkGraph.empty

def orState (x : Except Err SynState) : SynState :=
  match x with
  | .ok st => st
  | .error _ => ⟨NetworkGraph.empty, [], 0⟩

/-- 192.168.0.1/24. -/
def addr1 : IpInterface := ⟨3232235521, 24⟩

/-- 192.168.0.2/24. -/
def addr2 : IpInterface := ⟨3232235522, 24⟩

/-- 192.168.0.2/25. -/
def addr2q : IpInterface := ⟨3232235522, 25⟩

/-- Two routers R1, R2 with the two directed edges of one link
(tests/test_connected.py get_two_nodes). -/
def twoNodesE : Except Err NetworkGraph :=
  bindE (NetworkGraph.empty.add_router "R1") (fun g =>
  bindE (g.add_router "R2") (fun g =>
  bindE (g.add_router_edge "R1" "R2") (fun g =>
  g.add_router_edge "R2" "R1")))

/-- Interface setup shared by the connected tests: one interface per side,
bound to its edge, with the given addresses and shutdown flags. -/
def linkSetupE (g0 : Except Err NetworkGraph) (a1 a2 : AddrValue) (sh1 sh2 : Bool) :
    Except Err NetworkGraph :=
  bindE g0 (fun g =>
  bindE (g.add_iface "R1" "Fa0/0" sh1) (fun g =>
  bindE (g.set_iface_addr "R1" "Fa0/0" a1) (fun g =>
  bindE (g.set_edge_iface "R1" "R2" "Fa0/0") (fun g =>
  bindE (g.set_iface_description "R1" "Fa0/0" "To R2") (fun g =>
  bindE (g.add_iface "R2" "Fa0/0" sh2) (fun g =>
  bindE (g.set_iface_addr "R2" "Fa0/0" a2) (fun g =>
  bindE (g.set_edge_iface "R2" "R1" "Fa0/0") (fun g =>
  g.set_iface_description "R2" "Fa0/0" "To R1"))))))))

/-- The graph of test_correct_concrete. -/
def okGraph : NetworkGraph :=
  orEmpty (linkSetupE twoNodesE (.Concrete addr1) (.Concrete addr2) false false)

/-- The graph of test_wrong_subnets. -/
def wrongSubnetsGraph : NetworkGraph :=
  orEmpty (linkSetupE twoNodesE (.Concrete addr1) (.Concrete addr2q) false false)

/-- The graph of test_duplicate_address. -/
def dupAddrGraph : NetworkGraph :=
  orEmpty (linkSetupE twoNodesE (.Concrete addr1) (.Concrete addr1) false false)

/-- The graph of test_shutdown, with the shutdown side's address left
arbitrary. -/
def shutdownGraphE (a : AddrValue) : Except Err NetworkGraph :=
  linkSetupE twoNodesE a (.Concrete addr2) true false

/-- The graph of test_one_side_concrete. -/
def oneSideGraph : NetworkGraph :=
  orEmpty (linkSetupE twoNodesE (.Concrete addr1) .Unset false false)

/-- The mirror of test_one_side_concrete: the Unset endpoint on R1 and the
Concrete one on R2, so the link's first-inserted directed edge starts at
the Unset endpoint. -/
def oneSideGraphR : NetworkGraph :=
  orEmpty (linkSetupE twoNodesE .Unset (.Concrete addr1) false false)

/-- The correct-concrete graph extended with an unbound extra interface on
R1 pre-set to R2's address. -/
def extraIfaceGraph : NetworkGraph :=
  orEmpty (bindE (linkSetupE twoNodesE (.Concrete addr1) (.Concrete addr2) false false) (fun g =>
    bindE (g.add_iface "R1" "Fa0/1" false) (fun g =>
    g.set_iface_addr "R1" "Fa0/1" (.Concrete addr2))))

/-- The graph of test_router_id after the set to 123 (value3 of the test,
IPv4Address 1.1.1.1, embeds as 16843009). -/
def ridGraph : NetworkGraph :=
  orEmpty (bindE (NetworkGraph.empty.add_router "R1") (fun g =>
    bindE (g.set_bgp_asnum "R1" 100) (fun g =>
    bindE (g.set_bgp_router_id "R1" .Unset) (fun g =>
    g.set_bgp_router_id "R1" (.Concrete 123)))))


/-! ### Association-list lemmas -/

theorem aGet_aUpdF_self {α β : Type} [DecidableEq α] (l : List (α × β)) (k : α) (f : β → β)
    (v : β) (h : aGet l k = some v) : aGet (aUpdF l k f) k = some (f v) := by
  induction l with
  | nil => simp [aGet] at h
  | cons e rest ih =>
    obtain ⟨k1, v1⟩ := e
    by_cases hk : k1 = k
    · subst hk
      simp [aGet] at h
      simp [aUpdF, aGet, h]
    · simp [aGet, hk] at h
      simp [aUpdF, aGet, hk, ih h]

theorem aGet_aUpdF_ne {α β : Type} [DecidableEq α] (l : List (α × β)) (k k2 : α) (f : β → β)
    (h : k2 ≠ k) : aGet (aUpdF l k f) k2 = aGet l k2 := by
  induction l with
  | nil => simp [aUpdF]
  | cons e rest ih =>
    obtain ⟨k1, v1⟩ := e
    by_cases hk : k1 = k
    · subst hk
      have hne : ¬(k1 = k2) := fun hh => h hh.symm
      simp [aUpdF, aGet, hne]
    · simp [aUpdF, aGet, hk, ih]

theorem aUpdF_none {α β : Type} [DecidableEq α] (l : List (α × β)) (k : α) (f : β → β)
    (h : aGet l k = none) : aUpdF l k f = l := by
  induction l with
  | nil => simp [aUpdF]
  | cons e rest ih =>
    obtain ⟨k1, v1⟩ := e
    by_cases hk : k1 = k
    · simp [aGet, hk] at h
    · simp [aGet, hk] at h
      simp [aUpdF, hk, ih h]

theorem aUpdF_id {α β : Type} [DecidableEq α] (l : List (α × β)) (k : α) (f : β → β)
    (h : ∀ v, aGet l k = some v → f v = v) : aUpdF l k f = l := by
  induction l with
  | nil => simp [aUpdF]
  | cons e rest ih =>
    obtain ⟨k1, v1⟩ := e
    by_cases hk : k1 = k
    · have hv : f v1 = v1 := by
        apply h
        simp [aGet, hk]
      simp [aUpdF, hk, hv]
    · have := ih (fun v hv => h v (by simp [aGet, hk, hv]))
      simp [aUpdF, hk, this]

theorem aUpdF_map_fst {α β : Type} [DecidableEq α] (l : List (α × β)) (k : α) (f : β → β) :
    (aUpdF l k f).map Prod.fst = l.map Prod.fst := by
  induction l with
  | nil => simp [aUpdF]
  | cons e rest ih =>
    obtain ⟨k1, v1⟩ := e
    by_cases hk : k1 = k
    · simp [aUpdF, hk]
    · simp [aUpdF, hk, ih]

theorem aGet_append_some {α β : Type} [DecidableEq α] (l l2 : List (α × β)) (k : α) (v : β)
    (h : aGet l k = some v) : aGet (l ++ l2) k = some v := by
  induction l with
  | nil => simp [aGet] at h
  | cons e rest ih =>
    obtain ⟨k1, v1⟩ := e
    by_cases hk : k1 = k
    · simp [aGet, hk] at h
      simp [aGet, hk, h]
    · simp [aGet, hk] at h
      simp [aGet, hk, ih h]

theorem aGet_append_none {α β : Type} [DecidableEq α] (l l2 : List (α × β)) (k : α)
    (h : aGet l k = none) : aGet (l ++ l2) k = aGet l2 k := by
  induction l with
  | nil => simp
  | cons e rest ih =>
    obtain ⟨k1, v1⟩ := e
    by_cases hk : k1 = k
    · simp [aGet, hk] at h
    · simp [aGet, hk] at h
      simp [aGet, hk, ih h]

theorem aGet_map {α β γ : Type} [DecidableEq α] (l : List (α × β)) (h : β → γ) (k : α) :
    aGet (l.map (fun e => (e.1, h e.2))) k = (aGet l k).map h := by
  induction l with
  | nil => simp [aGet]
  | cons e rest ih =>
    obtain ⟨k1, v1⟩ := e
    by_cases hk : k1 = k
    · simp [aGet, hk]
    · simp [aGet, hk, ih]

theorem aGet_none_of_keys {α β β2 : Type} [DecidableEq α] (l : List (α × β)) (l2 : List (α × β2))
    (k : α) (hkeys : l2.map Prod.fst = l.map Prod.fst) (h : aGet l k = none) :
    aGet l2 k = none := by
  induction l generalizing l2 with
  | nil =>
    cases l2 with
    | nil => simp [aGet]
    | cons e rest => simp at hkeys
  | cons e rest ih =>
    obtain ⟨k1, v1⟩ := e
    cases l2 with
    | nil => simp [aGet]
    | cons e2 rest2 =>
      obtain ⟨k2, v2⟩ := e2
      simp at hkeys
      obtain ⟨hk12, hrest⟩ := hkeys
      by_cases hk : k1 = k
      · simp [aGet, hk] at h
      · simp [aGet, hk] at h
        simp [aGet, hk12, hk, ih rest2 hrest h]

theorem nodeIdx_keys {β β2 : Type} (l : List (String × β)) (l2 : List (String × β2)) (n : String)
    (hkeys : l2.map Prod.fst = l.map Prod.fst) : nodeIdx l2 n = nodeIdx l n := by
  induction l generalizing l2 with
  | nil =>
    cases l2 with
    | nil => rfl
    | cons e rest => simp at hkeys
  | cons e rest ih =>
    obtain ⟨k1, v1⟩ := e
    cases l2 with
    | nil => simp at hkeys
    | cons e2 rest2 =>
      obtain ⟨k2, v2⟩ := e2
      simp at hkeys
      obtain ⟨hk12, hrest⟩ := hkeys
      by_cases hk : k1 = n
      · simp [nodeIdx, hk, hk12]
      · simp [nodeIdx, hk, hk12, ih rest2 hrest]

/-! ### Graph read-back lemmas -/

theorem updNode_edges (g : NetworkGraph) (n : String) (f : NodeData → NodeData) :
    (updNode g n f).edges = g.edges := rfl

theorem getNode_updNode_self (g : NetworkGraph) (n : String) (f : NodeData → NodeData)
    (nd : NodeData) (h : getNode g n = some nd) :
    getNode (updNode g n f) n = some (f nd) := aGet_aUpdF_self g.nodes n f nd h

theorem getNode_updNode_ne (g : NetworkGraph) (n n2 : String) (f : NodeData → NodeData)
    (h : n2 ≠ n) : getNode (updNode g n f) n2 = getNode g n2 := aGet_aUpdF_ne g.nodes n n2 f h

theorem updNode_missing (g : NetworkGraph) (n : String) (f : NodeData → NodeData)
    (h : getNode g n = none) : updNode g n f = g := by
  show (⟨aUpdF g.nodes n f, g.edges⟩ : NetworkGraph) = g
  rw [aUpdF_none g.nodes n f h]

theorem updNode_id (g : NetworkGraph) (n : String) (f : NodeData → NodeData)
    (h : ∀ nd, getNode g n = some nd → f nd = nd) : updNode g n f = g := by
  show (⟨aUpdF g.nodes n f, g.edges⟩ : NetworkGraph) = g
  rw [aUpdF_id g.nodes n f h]


/-! ### Unfolding helpers for the node-indexed accessors -/

theorem get_iface_some (g : NetworkGraph) (n i : String) (nd : NodeData)
    (hg : getNode g n = some nd) : g.get_iface n i = aGet nd.ifaces i := by
  unfold NetworkGraph.get_iface
  rw [hg]

theorem get_iface_none (g : NetworkGraph) (n i : String) (hg : getNode g n = none) :
    g.get_iface n i = none := by
  unfold NetworkGraph.get_iface
  rw [hg]

theorem getLoopback_some (g : NetworkGraph) (n i : String) (nd : NodeData)
    (hg : getNode g n = some nd) : getLoopback g n i = aGet nd.loopbacks i := by
  unfold getLoopback
  rw [hg]

theorem getLoopback_none (g : NetworkGraph) (n i : String) (hg : getNode g n = none) :
    getLoopback g n i = none := by
  unfold getLoopback
  rw [hg]

theorem entryGet_some (g : NetworkGraph) (p w : String) (nd : NodeData)
    (hg : getNode g p = some nd) :
    entryGet g p w = match aGet nd.bgp_neighbors w with
      | some o => o
      | none => none := by
  unfold entryGet
  rw [hg]

theorem entryGet_none_node (g : NetworkGraph) (p w : String) (hg : getNode g p = none) :
    entryGet g p w = none := by
  unfold entryGet
  rw [hg]

/-! ### Generic preservation through updNode -/

theorem nodeSkel_updNode (g : NetworkGraph) (n : String) (f : NodeData → NodeData)
    (h : ∀ nd, ndSkel (f nd) = ndSkel nd) : nodeSkel (updNode g n f) = nodeSkel g := by
  show (aUpdF g.nodes n f).map (fun e => (e.1, ndSkel e.2)) = g.nodes.map (fun e => (e.1, ndSkel e.2))
  induction g.nodes with
  | nil => simp [aUpdF]
  | cons e rest ih =>
    obtain ⟨k1, v1⟩ := e
    by_cases hk : k1 = n
    · simp [aUpdF, hk, h v1]
    · simp [aUpdF, hk, ih]

theorem get_iface_updNode (g : NetworkGraph) (n n2 i : String) (f : NodeData → NodeData)
    (h : ∀ nd, (f nd).ifaces = nd.ifaces) :
    (updNode g n f).get_iface n2 i = g.get_iface n2 i := by
  by_cases hn : n2 = n
  · subst hn
    cases hg : getNode g n2 with
    | none => rw [updNode_missing g n2 f hg]
    | some nd =>
      rw [get_iface_some _ n2 i (f nd) (getNode_updNode_self g n2 f nd hg),
        get_iface_some g n2 i nd hg, h nd]
  · unfold NetworkGraph.get_iface
    rw [getNode_updNode_ne g n n2 f hn]

theorem getLoopback_updNode (g : NetworkGraph) (n n2 i : String) (f : NodeData → NodeData)
    (h : ∀ nd, (f nd).loopbacks = nd.loopbacks) :
    getLoopback (updNode g n f) n2 i = getLoopback g n2 i := by
  by_cases hn : n2 = n
  · subst hn
    cases hg : getNode g n2 with
    | none => rw [updNode_missing g n2 f hg]
    | some nd =>
      rw [getLoopback_some _ n2 i (f nd) (getNode_updNode_self g n2 f nd hg),
        getLoopback_some g n2 i nd hg, h nd]
  · unfold getLoopback
    rw [getNode_updNode_ne g n n2 f hn]

theorem entryGet_updNode (g : NetworkGraph) (n p w : String) (f : NodeData → NodeData)
    (h : ∀ nd, (f nd).bgp_neighbors = nd.bgp_neighbors) :
    entryGet (updNode g n f) p w = entryGet g p w := by
  by_cases hn : p = n
  · subst hn
    cases hg : getNode g p with
    | none => rw [updNode_missing g p f hg]
    | some nd =>
      rw [entryGet_some _ p w (f nd) (getNode_updNode_self g p f nd hg),
        entryGet_some g p w nd hg, h nd]
  · unfold entryGet
    rw [getNode_updNode_ne g n p f hn]

/-! ### setAddrRaw -/

theorem setAddrRaw_edges (g : NetworkGraph) (n i : String) (a : AddrValue) :
    (setAddrRaw g n i a).edges = g.edges := rfl

theorem setAddrRaw_skel (g : NetworkGraph) (n i : String) (a : AddrValue) :
    nodeSkel (setAddrRaw g n i a) = nodeSkel g :=
  nodeSkel_updNode g n _ (fun _ => rfl)

theorem setAddrRaw_lb (g : NetworkGraph) (n i n2 i2 : String) (a : AddrValue) :
    getLoopback (setAddrRaw g n i a) n2 i2 = getLoopback g n2 i2 :=
  getLoopback_updNode g n n2 i2 _ (fun _ => rfl)

theorem setAddrRaw_entry (g : NetworkGraph) (n i p w : String) (a : AddrValue) :
    entryGet (setAddrRaw g n i a) p w = entryGet g p w :=
  entryGet_updNode g n p w _ (fun _ => rfl)

theorem setAddrRaw_get_self (g : NetworkGraph) (n i : String) (a : AddrValue) (f : Iface)
    (h : g.get_iface n i = some f) :
    (setAddrRaw g n i a).get_iface n i = some ⟨a, f.is_shutdown, f.description⟩ := by
  cases hg : getNode g n with
  | none => rw [get_iface_none g n i hg] at h; exact absurd h (by simp)
  | some nd =>
    rw [get_iface_some g n i nd hg] at h
    unfold setAddrRaw
    rw [get_iface_some _ n i _ (getNode_updNode_self g n _ nd hg)]
    exact aGet_aUpdF_self nd.ifaces i _ f h

theorem setAddrRaw_get_other (g : NetworkGraph) (n i n2 i2 : String) (a : AddrValue)
    (h : (n2, i2) ≠ (n, i)) :
    (setAddrRaw g n i a).get_iface n2 i2 = g.get_iface n2 i2 := by
  by_cases hn : n2 = n
  · subst hn
    have hi : i2 ≠ i := fun hh => h (by rw [hh])
    cases hg : getNode g n2 with
    | none =>
      unfold setAddrRaw
      rw [updNode_missing g n2 _ hg]
    | some nd =>
      unfold setAddrRaw
      rw [get_iface_some _ n2 i2 _ (getNode_updNode_self g n2 _ nd hg),
        get_iface_some g n2 i2 nd hg]
      exact aGet_aUpdF_ne nd.ifaces i i2 _ hi
  · unfold setAddrRaw NetworkGraph.get_iface
    rw [getNode_updNode_ne g n n2 _ hn]

/-! ### Loopback raw operations -/

theorem addLoopbackRaw_edges (g : NetworkGraph) (w nm : String) :
    (addLoopbackRaw g w nm).edges = g.edges := rfl

theorem addLoopbackRaw_skel (g : NetworkGraph) (w nm : String) :
    nodeSkel (addLoopbackRaw g w nm) = nodeSkel g :=
  nodeSkel_updNode g w _ (fun _ => rfl)

theorem addLoopbackRaw_iface (g : NetworkGraph) (w nm n i : String) :
    (addLoopbackRaw g w nm).get_iface n i = g.get_iface n i :=
  get_iface_updNode g w n i _ (fun _ => rfl)

theorem addLoopbackRaw_entry (g : NetworkGraph) (w nm p w2 : String) :
    entryGet (addLoopbackRaw g w nm) p w2 = entryGet g p w2 :=
  entryGet_updNode g w p w2 _ (fun _ => rfl)

theorem addLoopbackRaw_lb_mono (g : NetworkGraph) (w nm n i : String) (f : Iface)
    (h : getLoopback g n i = some f) : getLoopback (addLoopbackRaw g w nm) n i = some f := by
  by_cases hn : n = w
  · subst hn
    cases hg : getNode g n with
    | none => rw [getLoopback_none g n i hg] at h; exact absurd h (by simp)
    | some nd =>
      rw [getLoopback_some g n i nd hg] at h
      unfold addLoopbackRaw
      rw [getLoopback_some _ n i _ (getNode_updNode_self g n _ nd hg)]
      exact aGet_append_some nd.loopbacks _ i f h
  · unfold addLoopbackRaw getLoopback
    rw [getNode_updNode_ne g w n _ hn]
    rw [getLoopback] at h
    exact h

theorem addLoopbackRaw_lb_new (g : NetworkGraph) (w nm : String) (nd : NodeData)
    (hg : getNode g w = some nd) (h : aGet nd.loopbacks nm = none) :
    getLoopback (addLoopbackRaw g w nm) w nm = some ⟨.Unset, false, ""⟩ := by
  unfold addLoopbackRaw
  rw [getLoopback_some _ w nm _ (getNode_updNode_self g w _ nd hg)]
  show aGet (nd.loopbacks ++ [(nm, ⟨.Unset, false, ""⟩)]) nm = _
  rw [aGet_append_none nd.loopbacks _ nm h]
  simp [aGet]

theorem setLoopbackAddrRaw_edges (g : NetworkGraph) (w nm : String) (a : AddrValue) :
    (setLoopbackAddrRaw g w nm a).edges = g.edges := rfl

theorem setLoopbackAddrRaw_skel (g : NetworkGraph) (w nm : String) (a : AddrValue) :
    nodeSkel (setLoopbackAddrRaw g w nm a) = nodeSkel g :=
  nodeSkel_updNode g w _ (fun _ => rfl)

theorem setLoopbackAddrRaw_iface (g : NetworkGraph) (w nm n i : String) (a : AddrValue) :
    (setLoopbackAddrRaw g w nm a).get_iface n i = g.get_iface n i :=
  get_iface_updNode g w n i _ (fun _ => rfl)

theorem setLoopbackAddrRaw_entry (g : NetworkGraph) (w nm p w2 : String) (a : AddrValue) :
    entryGet (setLoopbackAddrRaw g w nm a) p w2 = entryGet g p w2 :=
  entryGet_updNode g w p w2 _ (fun _ => rfl)

theorem setLoopbackAddrRaw_self (g : NetworkGraph) (w nm : String) (a : AddrValue) (f : Iface)
    (h : getLoopback g w nm = some f) :
    getLoopback (setLoopbackAddrRaw g w nm a) w nm = some ⟨a, f.is_shutdown, f.description⟩ := by
  cases hg : getNode g w with
  | none => rw [getLoopback_none g w nm hg] at h; exact absurd h (by simp)
  | some nd =>
    rw [getLoopback_some g w nm nd hg] at h
    unfold setLoopbackAddrRaw
    rw [getLoopback_some _ w nm _ (getNode_updNode_self g w _ nd hg)]
    exact aGet_aUpdF_self nd.loopbacks nm _ f h

theorem setLoopbackAddrRaw_other (g : NetworkGraph) (w nm n i : String) (a : AddrValue)
    (h : (n, i) ≠ (w, nm)) :
    getLoopback (setLoopbackAddrRaw g w nm a) n i = getLoopback g n i := by
  by_cases hn : n = w
  · subst hn
    have hi : i ≠ nm := fun hh => h (by rw [hh])
    cases hg : getNode g n with
    | none =>
      unfold setLoopbackAddrRaw
      rw [updNode_missing g n _ hg]
    | some nd =>
      unfold setLoopbackAddrRaw
      rw [getLoopback_some _ n i _ (getNode_updNode_self g n _ nd hg),
        getLoopback_some g n i nd hg]
      exact aGet_aUpdF_ne nd.loopbacks nm i _ hi
  · unfold setLoopbackAddrRaw getLoopback
    rw [getNode_updNode_ne g w n _ hn]

/-! ### recordNeighborIface -/

theorem rec_write (g : NetworkGraph) (p w nm : String) (he : entryGet g p w = none) :
    recordNeighborIface g p w nm =
      updNode g p (fun nd => nd.withNeighbors (aSet nd.bgp_neighbors w (some nm))) := by
  unfold recordNeighborIface
  rw [he]

theorem rec_skip (g : NetworkGraph) (p w nm i : String) (he : entryGet g p w = some i) :
    recordNeighborIface g p w nm = g := by
  unfold recordNeighborIface
  rw [he]

theorem rec_edges (g : NetworkGraph) (p w nm : String) :
    (recordNeighborIface g p w nm).edges = g.edges := by
  cases he : entryGet g p w with
  | some i => rw [rec_skip g p w nm i he]
  | none => rw [rec_write g p w nm he]; rfl

theorem rec_skel (g : NetworkGraph) (p w nm : String) :
    nodeSkel (recordNeighborIface g p w nm) = nodeSkel g := by
  cases he : entryGet g p w with
  | some i => rw [rec_skip g p w nm i he]
  | none =>
    rw [rec_write g p w nm he]
    apply nodeSkel_updNode
    intro nd
    show (nd.vtype, nd.bgp_asnum, (aSet nd.bgp_neighbors w (some nm)).map Prod.fst) = ndSkel nd
    unfold ndSkel aSet
    rw [aUpdF_map_fst]

theorem rec_iface (g : NetworkGraph) (p w nm n i : String) :
    (recordNeighborIface g p w nm).get_iface n i = g.get_iface n i := by
  cases he : entryGet g p w with
  | some x => rw [rec_skip g p w nm x he]
  | none =>
    rw [rec_write g p w nm he]
    exact get_iface_updNode g p n i _ (fun _ => rfl)

theorem rec_lb (g : NetworkGraph) (p w nm n i : String) :
    getLoopback (recordNeighborIface g p w nm) n i = getLoopback g n i := by
  cases he : entryGet g p w with
  | some x => rw [rec_skip g p w nm x he]
  | none =>
    rw [rec_write g p w nm he]
    exact getLoopback_updNode g p n i _ (fun _ => rfl)

theorem rec_noop_of (g : NetworkGraph) (p w nm : String) (h : recNoop g p w) :
    recordNeighborIface g p w nm = g := by
  rcases h with ⟨i, hi⟩ | hn | hk
  · exact rec_skip g p w nm i hi
  · rw [rec_write g p w nm (entryGet_none_node g p w hn)]
    exact updNode_missing g p _ hn
  · cases he : entryGet g p w with
    | some x => exact rec_skip g p w nm x he
    | none =>
      rw [rec_write g p w nm he]
      apply updNode_id
      intro nd hnd
      have hk2 := hk nd hnd
      show nd.withNeighbors (aSet nd.bgp_neighbors w (some nm)) = nd
      unfold aSet
      rw [aUpdF_none nd.bgp_neighbors w _ hk2]
      rfl

theorem rec_post (g : NetworkGraph) (p w nm : String) :
    recNoop (recordNeighborIface g p w nm) p w ∧
    (entryGet (recordNeighborIface g p w nm) p w = entryGet g p w ∨
      (entryGet g p w = none ∧ entryGet (recordNeighborIface g p w nm) p w = some nm)) := by
  cases he : entryGet g p w with
  | some i =>
    rw [rec_skip g p w nm i he]
    exact ⟨Or.inl ⟨i, he⟩, Or.inl he⟩
  | none =>
    cases hg : getNode g p with
    | none =>
      rw [rec_write g p w nm he, updNode_missing g p _ hg]
      exact ⟨Or.inr (Or.inl hg), Or.inl he⟩
    | some nd =>
      cases hk : aGet nd.bgp_neighbors w with
      | none =>
        have hid : recordNeighborIface g p w nm = g := by
          apply rec_noop_of
          right; right
          intro nd2 hnd2
          rw [hg] at hnd2
          cases hnd2
          exact hk
        rw [hid]
        refine ⟨Or.inr (Or.inr ?_), Or.inl he⟩
        intro nd2 hnd2
        rw [hg] at hnd2
        cases hnd2
        exact hk
      | some o =>
        have hset : entryGet (recordNeighborIface g p w nm) p w = some nm := by
          rw [rec_write g p w nm he,
            entryGet_some _ p w _ (getNode_updNode_self g p _ nd hg)]
          show (match aGet (aSet nd.bgp_neighbors w (some nm)) w with
            | some o => o
            | none => none) = some nm
          unfold aSet
          rw [aGet_aUpdF_self nd.bgp_neighbors w _ o hk]
        exact ⟨Or.inl ⟨nm, hset⟩, Or.inr ⟨rfl, hset⟩⟩

theorem rec_entry_other (g : NetworkGraph) (p w nm p2 w2 : String) (h : (p2, w2) ≠ (p, w)) :
    entryGet (recordNeighborIface g p w nm) p2 w2 = entryGet g p2 w2 := by
  cases he : entryGet g p w with
  | some x => rw [rec_skip g p w nm x he]
  | none =>
    rw [rec_write g p w nm he]
    by_cases hp : p2 = p
    · subst hp
      have hw : w2 ≠ w := fun hh => h (by rw [hh])
      cases hg : getNode g p2 with
      | none => rw [updNode_missing g p2 _ hg]
      | some nd =>
        rw [entryGet_some _ p2 w2 _ (getNode_updNode_self g p2 _ nd hg),
          entryGet_some g p2 w2 nd hg]
        show (match aGet (aSet nd.bgp_neighbors w (some nm)) w2 with
          | some o => o
          | none => none) = _
        unfold aSet
        rw [aGet_aUpdF_ne nd.bgp_neighbors w w2 _ hw]
    · unfold entryGet
      rw [getNode_updNode_ne g p p2 _ hp]


/-! ### Subnet arithmetic -/

theorem mask_pos (p : Nat) : 0 < mask p := pow_pos (by norm_num) _

theorem netBase_mod (a : IpInterface) : netBase a % mask a.plen = 0 := by
  unfold netBase
  exact Nat.mul_mod_left _ _

theorem netBase_base_add (B p k : Nat) (hB : B % mask p = 0) (hk : k < mask p) :
    netBase ⟨B + k, p⟩ = B := by
  have hm : 0 < mask p := mask_pos p
  have hdvd : mask p ∣ B := Nat.dvd_of_mod_eq_zero hB
  have hq : mask p * (B / mask p) = B := Nat.mul_div_cancel' hdvd
  show (B + k) / mask p * mask p = B
  have h1 : (B + k) / mask p = B / mask p := by
    conv_lhs => rw [← hq]
    rw [Nat.mul_add_div hm, Nat.div_eq_of_lt hk]
    omega
  rw [h1]
  exact Nat.div_mul_cancel hdvd

theorem mask_ge_two (p : Nat) (hp : p ≤ 31) : 2 ≤ mask p := by
  have h1 : 1 ≤ 32 - p := by omega
  calc 2 = 2 ^ 1 := rfl
    _ ≤ 2 ^ (32 - p) := Nat.pow_le_pow_right (by norm_num) h1

theorem mask_ge_four (p : Nat) (hp : p ≤ 30) : 4 ≤ mask p := by
  have h1 : 2 ≤ 32 - p := by omega
  calc 4 = 2 ^ 2 := rfl
    _ ≤ 2 ^ (32 - p) := Nat.pow_le_pow_right (by norm_num) h1

theorem otherHost_good (a : IpInterface) (hp : a.plen ≤ 31) :
    sameNetwork a ⟨otherHost a, a.plen⟩ ∧ otherHost a ≠ a.ip := by
  have hmod := netBase_mod a
  unfold otherHost hostsOf
  by_cases h31 : a.plen = 31
  · rw [if_pos h31]
    by_cases hip : a.ip = (netBase a, netBase a + 1).1
    · rw [if_pos hip]
      refine ⟨⟨rfl, ?_⟩, ?_⟩
      · rw [netBase_base_add (netBase a) a.plen 1 hmod
          (lt_of_lt_of_le (by norm_num) (mask_ge_two a.plen hp))]
      · simp only at hip
        omega
    · rw [if_neg hip]
      refine ⟨⟨rfl, ?_⟩, ?_⟩
      · have := netBase_base_add (netBase a) a.plen 0 hmod (mask_pos a.plen)
        simpa using this.symm
      · simp only at hip
        omega
  · rw [if_neg h31]
    have hp30 : a.plen ≤ 30 := by omega
    have h4 := mask_ge_four a.plen hp30
    by_cases hip : a.ip = (netBase a + 1, netBase a + 2).1
    · rw [if_pos hip]
      refine ⟨⟨rfl, ?_⟩, ?_⟩
      · rw [netBase_base_add (netBase a) a.plen 2 hmod (by omega)]
      · simp only at hip
        omega
    · rw [if_neg hip]
      refine ⟨⟨rfl, ?_⟩, ?_⟩
      · rw [netBase_base_add (netBase a) a.plen 1 hmod (by omega)]
      · simp only at hip
        omega

theorem blockBase_good (k : Nat) :
    sameNetwork ⟨blockBase k, 31⟩ ⟨blockBase k + 1, 31⟩ ∧ blockBase k ≠ blockBase k + 1 := by
  have hmask : mask 31 = 2 := by norm_num [mask]
  have hmod : blockBase k % mask 31 = 0 := by
    rw [hmask]
    unfold blockBase POOLBASE
    omega
  refine ⟨⟨rfl, ?_⟩, by omega⟩
  have h0 : netBase ⟨blockBase k, 31⟩ = blockBase k := by
    have := netBase_base_add (blockBase k) 31 0 hmod (by rw [hmask]; omega)
    simpa using this
  have h1 : netBase ⟨blockBase k + 1, 31⟩ = blockBase k :=
    netBase_base_add (blockBase k) 31 1 hmod (by rw [hmask]; omega)
  rw [h0, h1]

/-! ### addrMono -/

theorem addrMono_refl (a : AddrValue) : addrMono a a := Or.inl rfl

theorem addrMono_trans (a b c : AddrValue) (h1 : addrMono a b) (h2 : addrMono b c) :
    addrMono a c := by
  rcases h1 with h1 | ⟨hu, x, hx⟩
  · rw [h1]; exact h2
  · rcases h2 with h2 | ⟨hu2, y, hy⟩
    · rw [← h2, hx]
      exact Or.inr ⟨hu, x, rfl⟩
    · rw [hx] at hu2
      exact absurd hu2 (by simp)

theorem addrMono_concrete (x : IpInterface) (b : AddrValue)
    (h : addrMono (.Concrete x) b) : b = .Concrete x := by
  rcases h with h | ⟨hu, _⟩
  · exact h.symm
  · exact absurd hu (by simp)

theorem addrMono_symbolic (x : Nat) (b : AddrValue)
    (h : addrMono (.Symbolic x) b) : b = .Symbolic x := by
  rcases h with h | ⟨hu, _⟩
  · exact h.symm
  · exact absurd hu (by simp)

theorem notSym_addrMono (a b : AddrValue) (h : addrMono a b) (hs : notSym a = true) :
    notSym b = true := by
  rcases h with h | ⟨hu, x, hx⟩
  · rw [← h]; exact hs
  · rw [hx]; rfl

/-! ### gStep -/

theorem gStep_refl (lo : String) (G : NetworkGraph) : gStep lo G G :=
  ⟨rfl, rfl,
    fun _ _ f h => ⟨f, h, rfl, addrMono_refl f.addr⟩,
    fun _ _ f h => ⟨f, h, addrMono_refl f.addr⟩,
    fun _ _ => Or.inl rfl⟩

theorem gStep_trans (lo : String) (G1 G2 G3 : NetworkGraph)
    (h12 : gStep lo G1 G2) (h23 : gStep lo G2 G3) : gStep lo G1 G3 := by
  refine ⟨h23.edges_eq.trans h12.edges_eq, h23.skel_eq.trans h12.skel_eq, ?_, ?_, ?_⟩
  · intro n i f h
    obtain ⟨f2, hf2, hs2, hm2⟩ := h12.iface_mono n i f h
    obtain ⟨f3, hf3, hs3, hm3⟩ := h23.iface_mono n i f2 hf2
    exact ⟨f3, hf3, hs3.trans hs2, addrMono_trans _ _ _ hm2 hm3⟩
  · intro n i f h
    obtain ⟨f2, hf2, hm2⟩ := h12.lb_mono n i f h
    obtain ⟨f3, hf3, hm3⟩ := h23.lb_mono n i f2 hf2
    exact ⟨f3, hf3, addrMono_trans _ _ _ hm2 hm3⟩
  · intro p w
    rcases h23.entry_step p w with h3 | ⟨h3n, h3s⟩
    · rcases h12.entry_step p w with h2 | ⟨h2n, h2s⟩
      · exact Or.inl (h3.trans h2)
      · exact Or.inr ⟨h2n, h3.trans h2s⟩
    · rcases h12.entry_step p w with h2 | ⟨h2n, h2s⟩
      · exact Or.inr ⟨h2.symm.trans h3n, h3s⟩
      · rw [h2s] at h3n
        exact absurd h3n (by simp)

theorem gStep_setAddrRaw (lo : String) (G : NetworkGraph) (n i : String) (f : Iface)
    (h : G.get_iface n i = some f) (hu : f.addr = .Unset) (c : IpInterface) :
    gStep lo G (setAddrRaw G n i (.Concrete c)) := by
  refine ⟨rfl, setAddrRaw_skel G n i _, ?_, ?_, ?_⟩
  · intro n2 i2 f2 h2
    by_cases hni : (n2, i2) = (n, i)
    · obtain ⟨hn, hi⟩ := Prod.mk.injEq .. ▸ hni
      subst hn; subst hi
      rw [h] at h2
      cases h2
      exact ⟨⟨.Concrete c, f.is_shutdown, f.description⟩,
        setAddrRaw_get_self G n2 i2 _ f h, rfl, Or.inr ⟨hu, c, rfl⟩⟩
    · exact ⟨f2, (setAddrRaw_get_other G n i n2 i2 _ hni).trans h2, rfl, addrMono_refl _⟩
  · intro n2 i2 f2 h2
    exact ⟨f2, (setAddrRaw_lb G n i n2 i2 _).trans h2, addrMono_refl _⟩
  · intro p w
    exact Or.inl (setAddrRaw_entry G n i p w _)

theorem gStep_addLoopbackRaw (lo : String) (G : NetworkGraph) (w nm : String) :
    gStep lo G (addLoopbackRaw G w nm) := by
  refine ⟨rfl, addLoopbackRaw_skel G w nm, ?_, ?_, ?_⟩
  · intro n2 i2 f2 h2
    exact ⟨f2, (addLoopbackRaw_iface G w nm n2 i2).trans h2, rfl, addrMono_refl _⟩
  · intro n2 i2 f2 h2
    exact ⟨f2, addLoopbackRaw_lb_mono G w nm n2 i2 f2 h2, addrMono_refl _⟩
  · intro p w2
    exact Or.inl (addLoopbackRaw_entry G w nm p w2)

theorem gStep_setLoopbackAddrRaw (lo : String) (G : NetworkGraph) (w nm : String) (f : Iface)
    (h : getLoopback G w nm = some f) (hu : f.addr = .Unset) (c : IpInterface) :
    gStep lo G (setLoopbackAddrRaw G w nm (.Concrete c)) := by
  refine ⟨rfl, setLoopbackAddrRaw_skel G w nm _, ?_, ?_, ?_⟩
  · intro n2 i2 f2 h2
    exact ⟨f2, (setLoopbackAddrRaw_iface G w nm n2 i2 _).trans h2, rfl, addrMono_refl _⟩
  · intro n2 i2 f2 h2
    by_cases hni : (n2, i2) = (w, nm)
    · obtain ⟨hn, hi⟩ := Prod.mk.injEq .. ▸ hni
      subst hn; subst hi
      rw [h] at h2
      cases h2
      exact ⟨⟨.Concrete c, f.is_shutdown, f.description⟩,
        setLoopbackAddrRaw_self G n2 i2 _ f h, Or.inr ⟨hu, c, rfl⟩⟩
    · exact ⟨f2, (setLoopbackAddrRaw_other G w nm n2 i2 _ hni).trans h2, addrMono_refl _⟩
  · intro p w2
    exact Or.inl (setLoopbackAddrRaw_entry G w nm p w2 _)

theorem gStep_rec (lo : String) (G : NetworkGraph) (p w nm : String)
    (hnm : entryGet G p w = none → nm = lo) :
    gStep lo G (recordNeighborIface G p w nm) := by
  refine ⟨rec_edges G p w nm, rec_skel G p w nm, ?_, ?_, ?_⟩
  · intro n2 i2 f2 h2
    exact ⟨f2, (rec_iface G p w nm n2 i2).trans h2, rfl, addrMono_refl _⟩
  · intro n2 i2 f2 h2
    exact ⟨f2, (rec_lb G p w nm n2 i2).trans h2, addrMono_refl _⟩
  · intro p2 w2
    by_cases hpw : (p2, w2) = (p, w)
    · obtain ⟨hp, hw⟩ := Prod.mk.injEq .. ▸ hpw
      subst hp; subst hw
      rcases (rec_post G p2 w2 nm).2 with h | ⟨hn, hs⟩
      · exact Or.inl h
      · have hx := hnm hn
        subst hx
        exact Or.inr ⟨hn, hs⟩
    · exact Or.inl (rec_entry_other G p w nm p2 w2 hpw)


/-! ### Registry lemmas -/

theorem registerPair_mem (reg : Registry) (k : String × String) (a : IpInterface) (r : Registry)
    (h : registerPair reg k a = .ok r) : (k, a) ∈ r := by
  unfold registerPair at h
  by_cases hmem : (k, a) ∈ reg
  · rw [if_pos hmem] at h
    injection h with h
    rw [← h]
    exact hmem
  · rw [if_neg hmem] at h
    by_cases hex : ∃ e ∈ reg, e.2 = a
    · rw [if_pos hex] at h
      exact Except.noConfusion h
    · rw [if_neg hex] at h
      injection h with h
      rw [← h]
      simp

theorem registerPair_sub (reg : Registry) (k : String × String) (a : IpInterface) (r : Registry)
    (h : registerPair reg k a = .ok r) : ∀ e ∈ reg, e ∈ r := by
  unfold registerPair at h
  by_cases hmem : (k, a) ∈ reg
  · rw [if_pos hmem] at h
    injection h with h
    rw [← h]
    exact fun e he => he
  · rw [if_neg hmem] at h
    by_cases hex : ∃ e ∈ reg, e.2 = a
    · rw [if_pos hex] at h
      exact Except.noConfusion h
    · rw [if_neg hex] at h
      injection h with h
      rw [← h]
      intro e he
      exact List.mem_append_left _ he

theorem registerPair_nodup (reg : Registry) (k : String × String) (a : IpInterface) (r : Registry)
    (h : registerPair reg k a = .ok r) (hn : (reg.map (fun e => e.2)).Nodup) :
    (r.map (fun e => e.2)).Nodup := by
  unfold registerPair at h
  by_cases hmem : (k, a) ∈ reg
  · rw [if_pos hmem] at h
    injection h with h
    rw [← h]
    exact hn
  · rw [if_neg hmem] at h
    by_cases hex : ∃ e ∈ reg, e.2 = a
    · rw [if_pos hex] at h
      exact Except.noConfusion h
    · rw [if_neg hex] at h
      injection h with h
      rw [← h, List.map_append]
      refine List.Nodup.append hn (by simp) ?_
      intro x hx hx2
      simp at hx2
      subst hx2
      obtain ⟨e, he, hea⟩ := List.mem_map.mp hx
      exact hex ⟨e, he, hea⟩

theorem registerPair_master (M reg : Registry) (k : String × String) (a : IpInterface)
    (hM : (k, a) ∈ M) (hsub : ∀ e ∈ reg, e ∈ M) (hn : (M.map (fun e => e.2)).Nodup) :
    ∃ r, registerPair reg k a = .ok r ∧ ∀ e ∈ r, e ∈ M := by
  unfold registerPair
  by_cases hmem : (k, a) ∈ reg
  · rw [if_pos hmem]
    exact ⟨reg, rfl, hsub⟩
  · rw [if_neg hmem]
    have hex : ¬∃ e ∈ reg, e.2 = a := by
      rintro ⟨e, he, hea⟩
      have heM := hsub e he
      have heq : e = (k, a) := List.inj_on_of_nodup_map hn heM hM (by rw [hea])
      rw [heq] at he
      exact hmem he
    rw [if_neg hex]
    refine ⟨reg ++ [(k, a)], rfl, ?_⟩
    intro e he
    rcases List.mem_append.mp he with h2 | h2
    · exact hsub e h2
    · simp at h2
      rw [h2]
      exact hM

theorem regTwo_ok (st : SynState) (g2 : NetworkGraph) (p2 : Nat) (k1 : String × String)
    (a1 : IpInterface) (k2 : String × String) (a2 : IpInterface) (st2 : SynState)
    (h : regTwo st g2 p2 k1 a1 k2 a2 = .ok st2) :
    ∃ r1 r2, registerPair st.registry k1 a1 = .ok r1 ∧ registerPair r1 k2 a2 = .ok r2 ∧
      st2 = ⟨g2, r2, p2⟩ := by
  unfold regTwo at h
  cases hr1 : registerPair st.registry k1 a1 with
  | error e =>
    rw [hr1] at h
    exact Except.noConfusion h
  | ok r1 =>
    rw [hr1] at h
    dsimp only at h
    cases hr2 : registerPair r1 k2 a2 with
    | error e =>
      rw [hr2] at h
      exact Except.noConfusion h
    | ok r2 =>
      rw [hr2] at h
      injection h with h
      exact ⟨r1, r2, rfl, hr2, h.symm⟩

theorem regTwo_intro (st : SynState) (g2 : NetworkGraph) (p2 : Nat) (k1 : String × String)
    (a1 : IpInterface) (k2 : String × String) (a2 : IpInterface) (r1 r2 : Registry)
    (h1 : registerPair st.registry k1 a1 = .ok r1) (h2 : registerPair r1 k2 a2 = .ok r2) :
    regTwo st g2 p2 k1 a1 k2 a2 = .ok ⟨g2, r2, p2⟩ := by
  unfold regTwo
  rw [h1]
  dsimp only
  rw [h2]

/-! ### Small accessor lemmas -/

theorem get_edge_iface_edges (g2 g : NetworkGraph) (h : g2.edges = g.edges) (u v : String) :
    g2.get_edge_iface u v = g.get_edge_iface u v := by
  unfold NetworkGraph.get_edge_iface
  rw [h]

theorem get_iface_addr_of (g : NetworkGraph) (n i : String) (f : Iface)
    (h : g.get_iface n i = some f) : g.get_iface_addr n i = some f.addr := by
  unfold NetworkGraph.get_iface_addr
  rw [h]

theorem linkActive_unfold (g : NetworkGraph) (u v iu iv : String) (fu fv : Iface)
    (hiu : g.get_edge_iface u v = some iu) (hiv : g.get_edge_iface v u = some iv)
    (hfu : g.get_iface u iu = some fu) (hfv : g.get_iface v iv = some fv) :
    linkActive g u v =
      (!fu.is_shutdown && !fv.is_shutdown && notSym fu.addr && notSym fv.addr) := by
  unfold linkActive
  rw [hiu, hiv]
  dsimp only
  rw [hfu, hfv]


/-! ### procLink case packs -/

theorem lazyPack (lo : String) (full : Bool) (st : SynState) (u v : String)
    (hact : linkActive st.g u v = false) (hfull : full = false) :
    gStep lo st.g st.g ∧ (∀ e ∈ st.registry, e ∈ st.registry) ∧
    ((st.registry.map (fun e => e.2)).Nodup → (st.registry.map (fun e => e.2)).Nodup) ∧
    (linkActive st.g u v = true → linkResolved st.g u v) ∧
    (linkActive st.g u v = false → st = st) ∧
    (full = true → linkSettled st.g st.registry u v) :=
  ⟨gStep_refl lo st.g, fun _ he => he, fun hn => hn,
    fun ht => absurd ht (by rw [hact]; simp),
    fun _ => rfl,
    fun ht => absurd ht (by rw [hfull]; simp)⟩

theorem symPack (lo : String) (full : Bool) (st : SynState) (u v iu iv : String) (fu fv : Iface)
    (huv : u ≠ v)
    (hiu : st.g.get_edge_iface u v = some iu) (hiv : st.g.get_edge_iface v u = some iv)
    (hfu : st.g.get_iface u iu = some fu) (hfv : st.g.get_iface v iv = some fv)
    (hsu : fu.is_shutdown = false) (hsv : fv.is_shutdown = false)
    (hsym : (∃ s, fu.addr = .Symbolic s) ∨ (∃ s, fv.addr = .Symbolic s)) :
    gStep lo st.g st.g ∧ (∀ e ∈ st.registry, e ∈ st.registry) ∧
    ((st.registry.map (fun e => e.2)).Nodup → (st.registry.map (fun e => e.2)).Nodup) ∧
    (linkActive st.g u v = true → linkResolved st.g u v) ∧
    (linkActive st.g u v = false → st = st) ∧
    (full = true → linkSettled st.g st.registry u v) := by
  refine ⟨gStep_refl lo st.g, fun _ he => he, fun hn => hn, ?_, fun _ => rfl, ?_⟩
  · intro ht
    rw [linkActive_unfold st.g u v iu iv fu fv hiu hiv hfu hfv, hsu, hsv] at ht
    rcases hsym with ⟨s, hs⟩ | ⟨s, hs⟩
    · rw [hs] at ht
      simp [notSym] at ht
    · rw [hs] at ht
      simp [notSym] at ht
  · intro _
    exact ⟨huv, iu, iv, fu, fv, hiu, hiv, hfu, hfv, hsu, hsv, Or.inr hsym⟩

/-! ### The per-link main lemma -/

theorem procLink_main (lo : String) (full : Bool) (st : SynState) (u v : String) (st2 : SynState)
    (h : procLink full st u v = .ok st2) :
    gStep lo st.g st2.g ∧
    (∀ e ∈ st.registry, e ∈ st2.registry) ∧
    ((st.registry.map (fun e => e.2)).Nodup → (st2.registry.map (fun e => e.2)).Nodup) ∧
    (linkActive st.g u v = true → linkResolved st2.g u v) ∧
    (linkActive st.g u v = false → st2 = st) ∧
    (full = true → linkSettled st2.g st2.registry u v) := by
  unfold procLink at h
  by_cases huv : u = v
  · rw [if_pos huv] at h
    exact Except.noConfusion h
  rw [if_neg huv] at h
  cases hiu : st.g.get_edge_iface u v with
  | none =>
    rw [hiu] at h
    cases hiv : st.g.get_edge_iface v u with
    | none =>
      rw [hiv] at h
      try dsimp only at h
      cases full with
      | true => exact Except.noConfusion h
      | false =>
        injection h with h
        subst h
        exact lazyPack lo false st u v (by unfold linkActive; rw [hiu, hiv]) rfl
    | some iv =>
      rw [hiv] at h
      try dsimp only at h
      cases full with
      | true => exact Except.noConfusion h
      | false =>
        injection h with h
        subst h
        exact lazyPack lo false st u v (by unfold linkActive; rw [hiu, hiv]) rfl
  | some iu =>
    rw [hiu] at h
    cases hiv : st.g.get_edge_iface v u with
    | none =>
      rw [hiv] at h
      try dsimp only at h
      cases full with
      | true => exact Except.noConfusion h
      | false =>
        injection h with h
        subst h
        exact lazyPack lo false st u v (by unfold linkActive; rw [hiu, hiv]) rfl
    | some iv =>
      rw [hiv] at h
      try dsimp only at h
      cases hfu : st.g.get_iface u iu with
      | none =>
        rw [hfu] at h
        cases hfv : st.g.get_iface v iv with
        | none =>
          rw [hfv] at h
          try dsimp only at h
          cases full with
          | true => exact Except.noConfusion h
          | false =>
            injection h with h
            subst h
            exact lazyPack lo false st u v
              (by unfold linkActive; rw [hiu, hiv]; dsimp only; rw [hfu, hfv]) rfl
        | some fv =>
          rw [hfv] at h
          try dsimp only at h
          cases full with
          | true => exact Except.noConfusion h
          | false =>
            injection h with h
            subst h
            exact lazyPack lo false st u v
              (by unfold linkActive; rw [hiu, hiv]; dsimp only; rw [hfu, hfv]) rfl
      | some fu =>
        rw [hfu] at h
        cases hfv : st.g.get_iface v iv with
        | none =>
          rw [hfv] at h
          try dsimp only at h
          cases full with
          | true => exact Except.noConfusion h
          | false =>
            injection h with h
            subst h
            exact lazyPack lo false st u v
              (by unfold linkActive; rw [hiu, hiv]; dsimp only; rw [hfu, hfv]) rfl
        | some fv =>
          rw [hfv] at h
          try dsimp only at h
          cases hsu : fu.is_shutdown with
          | true =>
            rw [hsu] at h
            try dsimp only at h
            cases full with
            | true => exact Except.noConfusion h
            | false =>
              injection h with h
              subst h
              refine lazyPack lo false st u v ?_ rfl
              rw [linkActive_unfold st.g u v iu iv fu fv hiu hiv hfu hfv, hsu]
              rfl
          | false =>
            rw [hsu] at h
            cases hsv : fv.is_shutdown with
            | true =>
              rw [hsv] at h
              try dsimp only at h
              cases full with
              | true => exact Except.noConfusion h
              | false =>
                injection h with h
                subst h
                refine lazyPack lo false st u v ?_ rfl
                rw [linkActive_unfold st.g u v iu iv fu fv hiu hiv hfu hfv, hsu, hsv]
                rfl
            | false =>
              rw [hsv] at h
              rw [if_neg (by simp : ¬((false || false) = true))] at h
              unfold resolveLink at h
              cases hau : fu.addr with
              | Symbolic s =>
                cases hav : fv.addr with
                | Symbolic s2 =>
                  rw [hau, hav] at h
                  try dsimp only at h
                  injection h with h
                  subst h
                  exact symPack lo full st u v iu iv fu fv huv hiu hiv hfu hfv hsu hsv
                    (Or.inl ⟨s, hau⟩)
                | Concrete b =>
                  rw [hau, hav] at h
                  try dsimp only at h
                  injection h with h
                  subst h
                  exact symPack lo full st u v iu iv fu fv huv hiu hiv hfu hfv hsu hsv
                    (Or.inl ⟨s, hau⟩)
                | Unset =>
                  rw [hau, hav] at h
                  try dsimp only at h
                  injection h with h
                  subst h
                  exact symPack lo full st u v iu iv fu fv huv hiu hiv hfu hfv hsu hsv
                    (Or.inl ⟨s, hau⟩)
              | Concrete a =>
                cases hav : fv.addr with
                | Symbolic s =>
                  rw [hau, hav] at h
                  try dsimp only at h
                  injection h with h
                  subst h
                  exact symPack lo full st u v iu iv fu fv huv hiu hiv hfu hfv hsu hsv
                    (Or.inr ⟨s, hav⟩)
                | Concrete b =>
                  rw [hau, hav] at h
                  try dsimp only at h
                  by_cases hsn : sameNetwork a b
                  · rw [if_pos hsn] at h
                    by_cases hip : a.ip = b.ip
                    · rw [if_pos hip] at h
                      exact Except.noConfusion h
                    · rw [if_neg hip] at h
                      obtain ⟨r1, r2, h1, h2, hst⟩ := regTwo_ok st _ _ _ _ _ _ _ h
                      subst hst
                      have hm1 : ((u, iu), a) ∈ r2 :=
                        registerPair_sub r1 _ _ r2 h2 _ (registerPair_mem st.registry _ _ r1 h1)
                      have hm2 : ((v, iv), b) ∈ r2 := registerPair_mem r1 _ _ r2 h2
                      have hactT : linkActive st.g u v = true := by
                        rw [linkActive_unfold st.g u v iu iv fu fv hiu hiv hfu hfv, hsu, hsv,
                          hau, hav]
                        rfl
                      refine ⟨gStep_refl lo st.g, ?_, ?_, ?_, ?_, ?_⟩
                      · intro e he
                        exact registerPair_sub r1 _ _ r2 h2 _
                          (registerPair_sub st.registry _ _ r1 h1 _ he)
                      · intro hn
                        exact registerPair_nodup r1 _ _ r2 h2
                          (registerPair_nodup st.registry _ _ r1 h1 hn)
                      · intro _
                        exact ⟨iu, iv, a, b, hiu, hiv,
                          by rw [get_iface_addr_of st.g u iu fu hfu, hau],
                          by rw [get_iface_addr_of st.g v iv fv hfv, hav], hsn, hip⟩
                      · intro hf
                        rw [hactT] at hf
                        exact Bool.noConfusion hf
                      · intro _
                        exact ⟨huv, iu, iv, fu, fv, hiu, hiv, hfu, hfv, hsu, hsv,
                          Or.inl ⟨a, b, hau, hav, hsn, hip, hm1, hm2⟩⟩
                  · rw [if_neg hsn] at h
                    exact Except.noConfusion h
                | Unset =>
                  rw [hau, hav] at h
                  try dsimp only at h
                  by_cases hp : a.plen ≤ 31
                  · rw [if_pos hp] at h
                    obtain ⟨r1, r2, h1, h2, hst⟩ := regTwo_ok st _ _ _ _ _ _ _ h
                    subst hst
                    have hne : (u, iu) ≠ (v, iv) := fun hh => huv (congrArg Prod.fst hh)
                    have hog := otherHost_good a hp
                    have hg2u : (setAddrRaw st.g v iv
                        (.Concrete ⟨otherHost a, a.plen⟩)).get_iface u iu = some fu :=
                      (setAddrRaw_get_other st.g v iv u iu _ hne).trans hfu
                    have hg2v : (setAddrRaw st.g v iv
                        (.Concrete ⟨otherHost a, a.plen⟩)).get_iface v iv =
                        some ⟨.Concrete ⟨otherHost a, a.plen⟩, fv.is_shutdown, fv.description⟩ :=
                      setAddrRaw_get_self st.g v iv _ fv hfv
                    have hm1 : ((u, iu), a) ∈ r2 :=
                      registerPair_sub r1 _ _ r2 h2 _ (registerPair_mem st.registry _ _ r1 h1)
                    have hm2 : ((v, iv), (⟨otherHost a, a.plen⟩ : IpInterface)) ∈ r2 :=
                      registerPair_mem r1 _ _ r2 h2
                    have hactT : linkActive st.g u v = true := by
                      rw [linkActive_unfold st.g u v iu iv fu fv hiu hiv hfu hfv, hsu, hsv,
                        hau, hav]
                      rfl
                    have hedge : ∀ x y : String,
                        (setAddrRaw st.g v iv
                          (.Concrete ⟨otherHost a, a.plen⟩)).get_edge_iface x y =
                          st.g.get_edge_iface x y :=
                      fun x y => get_edge_iface_edges _ st.g rfl x y
                    refine ⟨gStep_setAddrRaw lo st.g v iv fv hfv hav _, ?_, ?_, ?_, ?_, ?_⟩
                    · intro e he
                      exact registerPair_sub r1 _ _ r2 h2 _
                        (registerPair_sub st.registry _ _ r1 h1 _ he)
                    · intro hn
                      exact registerPair_nodup r1 _ _ r2 h2
                        (registerPair_nodup st.registry _ _ r1 h1 hn)
                    · intro _
                      exact ⟨iu, iv, a, ⟨otherHost a, a.plen⟩,
                        (hedge u v).trans hiu, (hedge v u).trans hiv,
                        by rw [get_iface_addr_of _ u iu fu hg2u, hau],
                        by rw [get_iface_addr_of _ v iv _ hg2v],
                        hog.1, fun hh => hog.2 hh.symm⟩
                    · intro hf
                      rw [hactT] at hf
                      exact Bool.noConfusion hf
                    · intro _
                      exact ⟨huv, iu, iv, fu, ⟨.Concrete ⟨otherHost a, a.plen⟩,
                          fv.is_shutdown, fv.description⟩,
                        (hedge u v).trans hiu, (hedge v u).trans hiv, hg2u, hg2v, hsu, hsv,
                        Or.inl ⟨a, ⟨otherHost a, a.plen⟩, hau, rfl, hog.1,
                          fun hh => hog.2 hh.symm, hm1, hm2⟩⟩
                  · rw [if_neg hp] at h
                    exact Except.noConfusion h
              | Unset =>
                cases hav : fv.addr with
                | Symbolic s =>
                  rw [hau, hav] at h
                  try dsimp only at h
                  injection h with h
                  subst h
                  exact symPack lo full st u v iu iv fu fv huv hiu hiv hfu hfv hsu hsv
                    (Or.inr ⟨s, hav⟩)
                | Concrete b =>
                  rw [hau, hav] at h
                  try dsimp only at h
                  by_cases hp : b.plen ≤ 31
                  · rw [if_pos hp] at h
                    obtain ⟨r1, r2, h1, h2, hst⟩ := regTwo_ok st _ _ _ _ _ _ _ h
                    subst hst
                    have hne : (v, iv) ≠ (u, iu) := fun hh => huv (congrArg Prod.fst hh).symm
                    have hog := otherHost_good b hp
                    have hg2v : (setAddrRaw st.g u iu
                        (.Concrete ⟨otherHost b, b.plen⟩)).get_iface v iv = some fv :=
                      (setAddrRaw_get_other st.g u iu v iv _ hne).trans hfv
                    have hg2u : (setAddrRaw st.g u iu
                        (.Concrete ⟨otherHost b, b.plen⟩)).get_iface u iu =
                        some ⟨.Concrete ⟨otherHost b, b.plen⟩, fu.is_shutdown, fu.description⟩ :=
                      setAddrRaw_get_self st.g u iu _ fu hfu
                    have hm1 : ((u, iu), (⟨otherHost b, b.plen⟩ : IpInterface)) ∈ r2 :=
                      registerPair_sub r1 _ _ r2 h2 _ (registerPair_mem st.registry _ _ r1 h1)
                    have hm2 : ((v, iv), b) ∈ r2 := registerPair_mem r1 _ _ r2 h2
                    have hactT : linkActive st.g u v = true := by
                      rw [linkActive_unfold st.g u v iu iv fu fv hiu hiv hfu hfv, hsu, hsv,
                        hau, hav]
                      rfl
                    have hedge : ∀ x y : String,
                        (setAddrRaw st.g u iu
                          (.Concrete ⟨otherHost b, b.plen⟩)).get_edge_iface x y =
                          st.g.get_edge_iface x y :=
                      fun x y => get_edge_iface_edges _ st.g rfl x y
                    refine ⟨gStep_setAddrRaw lo st.g u iu fu hfu hau _, ?_, ?_, ?_, ?_, ?_⟩
                    · intro e he
                      exact registerPair_sub r1 _ _ r2 h2 _
                        (registerPair_sub st.registry _ _ r1 h1 _ he)
                    · intro hn
                      exact registerPair_nodup r1 _ _ r2 h2
                        (registerPair_nodup st.registry _ _ r1 h1 hn)
                    · intro _
                      exact ⟨iu, iv, ⟨otherHost b, b.plen⟩, b,
                        (hedge u v).trans hiu, (hedge v u).trans hiv,
                        by rw [get_iface_addr_of _ u iu _ hg2u],
                        by rw [get_iface_addr_of _ v iv fv hg2v, hav],
                        ⟨hog.1.1.symm, hog.1.2.symm⟩, hog.2⟩
                    · intro hf
                      rw [hactT] at hf
                      exact Bool.noConfusion hf
                    · intro _
                      exact ⟨huv, iu, iv, ⟨.Concrete ⟨otherHost b, b.plen⟩,
                          fu.is_shutdown, fu.description⟩, fv,
                        (hedge u v).trans hiu, (hedge v u).trans hiv, hg2u, hg2v, hsu, hsv,
                        Or.inl ⟨⟨otherHost b, b.plen⟩, b, rfl, hav,
                          ⟨hog.1.1.symm, hog.1.2.symm⟩, hog.2, hm1, hm2⟩⟩
                  · rw [if_neg hp] at h
                    exact Except.noConfusion h
                | Unset =>
                  rw [hau, hav] at h
                  try dsimp only at h
                  obtain ⟨r1, r2, h1, h2, hst⟩ := regTwo_ok st _ _ _ _ _ _ _ h
                  subst hst
                  have hneuv : (u, iu) ≠ (v, iv) := fun hh => huv (congrArg Prod.fst hh)
                  have hnevu : (v, iv) ≠ (u, iu) := fun hh => huv (congrArg Prod.fst hh).symm
                  have hbg := blockBase_good st.pool
                  have hfv1 : (setAddrRaw st.g u iu
                      (.Concrete ⟨blockBase st.pool, 31⟩)).get_iface v iv = some fv :=
                    (setAddrRaw_get_other st.g u iu v iv _ hnevu).trans hfv
                  have hg2u : (setAddrRaw (setAddrRaw st.g u iu
                      (.Concrete ⟨blockBase st.pool, 31⟩)) v iv
                      (.Concrete ⟨blockBase st.pool + 1, 31⟩)).get_iface u iu =
                      some ⟨.Concrete ⟨blockBase st.pool, 31⟩, fu.is_shutdown, fu.description⟩ :=
                    (setAddrRaw_get_other _ v iv u iu _ hneuv).trans
                      (setAddrRaw_get_self st.g u iu _ fu hfu)
                  have hg2v : (setAddrRaw (setAddrRaw st.g u iu
                      (.Concrete ⟨blockBase st.pool, 31⟩)) v iv
                      (.Concrete ⟨blockBase st.pool + 1, 31⟩)).get_iface v iv =
                      some ⟨.Concrete ⟨blockBase st.pool + 1, 31⟩, fv.is_shutdown,
                        fv.description⟩ :=
                    setAddrRaw_get_self _ v iv _ fv hfv1
                  have hm1 : ((u, iu), (⟨blockBase st.pool, 31⟩ : IpInterface)) ∈ r2 :=
                    registerPair_sub r1 _ _ r2 h2 _ (registerPair_mem st.registry _ _ r1 h1)
                  have hm2 : ((v, iv), (⟨blockBase st.pool + 1, 31⟩ : IpInterface)) ∈ r2 :=
                    registerPair_mem r1 _ _ r2 h2
                  have hactT : linkActive st.g u v = true := by
                    rw [linkActive_unfold st.g u v iu iv fu fv hiu hiv hfu hfv, hsu, hsv,
                      hau, hav]
                    rfl
                  have hedge : ∀ x y : String,
                      (setAddrRaw (setAddrRaw st.g u iu
                        (.Concrete ⟨blockBase st.pool, 31⟩)) v iv
                        (.Concrete ⟨blockBase st.pool + 1, 31⟩)).get_edge_iface x y =
                        st.g.get_edge_iface x y :=
                    fun x y => get_edge_iface_edges _ st.g rfl x y
                  have hstep : gStep lo st.g (setAddrRaw (setAddrRaw st.g u iu
                      (.Concrete ⟨blockBase st.pool, 31⟩)) v iv
                      (.Concrete ⟨blockBase st.pool + 1, 31⟩)) :=
                    gStep_trans lo _ _ _
                      (gStep_setAddrRaw lo st.g u iu fu hfu hau _)
                      (gStep_setAddrRaw lo _ v iv fv hfv1 hav _)
                  refine ⟨hstep, ?_, ?_, ?_, ?_, ?_⟩
                  · intro e he
                    exact registerPair_sub r1 _ _ r2 h2 _
                      (registerPair_sub st.registry _ _ r1 h1 _ he)
                  · intro hn
                    exact registerPair_nodup r1 _ _ r2 h2
                      (registerPair_nodup st.registry _ _ r1 h1 hn)
                  · intro _
                    exact ⟨iu, iv, ⟨blockBase st.pool, 31⟩, ⟨blockBase st.pool + 1, 31⟩,
                      (hedge u v).trans hiu, (hedge v u).trans hiv,
                      by rw [get_iface_addr_of _ u iu _ hg2u],
                      by rw [get_iface_addr_of _ v iv _ hg2v],
                      hbg.1, hbg.2⟩
                  · intro hf
                    rw [hactT] at hf
                    exact Bool.noConfusion hf
                  · intro _
                    exact ⟨huv, iu, iv,
                      ⟨.Concrete ⟨blockBase st.pool, 31⟩, fu.is_shutdown, fu.description⟩,
                      ⟨.Concrete ⟨blockBase st.pool + 1, 31⟩, fv.is_shutdown, fv.description⟩,
                      (hedge u v).trans hiu, (hedge v u).trans hiv, hg2u, hg2v, hsu, hsv,
                      Or.inl ⟨⟨blockBase st.pool, 31⟩, ⟨blockBase st.pool + 1, 31⟩, rfl, rfl,
                        hbg.1, hbg.2, hm1, hm2⟩⟩


/-! ### Stability of the link predicates under synthesis steps -/

theorem get_iface_addr_elim (g : NetworkGraph) (n i : String) (x : AddrValue)
    (h : g.get_iface_addr n i = some x) : ∃ f, g.get_iface n i = some f ∧ f.addr = x := by
  unfold NetworkGraph.get_iface_addr at h
  cases hf : g.get_iface n i with
  | none =>
    rw [hf] at h
    exact Option.noConfusion h
  | some f =>
    rw [hf] at h
    injection h with h
    exact ⟨f, rfl, h⟩

theorem linkActive_elim (G : NetworkGraph) (u v : String) (ha : linkActive G u v = true) :
    ∃ iu iv fu fv, G.get_edge_iface u v = some iu ∧ G.get_edge_iface v u = some iv ∧
      G.get_iface u iu = some fu ∧ G.get_iface v iv = some fv ∧
      fu.is_shutdown = false ∧ fv.is_shutdown = false ∧
      notSym fu.addr = true ∧ notSym fv.addr = true := by
  cases hiu : G.get_edge_iface u v with
  | none =>
    cases hiv : G.get_edge_iface v u with
    | none => unfold linkActive at ha; rw [hiu, hiv] at ha; exact Bool.noConfusion ha
    | some iv => unfold linkActive at ha; rw [hiu, hiv] at ha; exact Bool.noConfusion ha
  | some iu =>
    cases hiv : G.get_edge_iface v u with
    | none => unfold linkActive at ha; rw [hiu, hiv] at ha; exact Bool.noConfusion ha
    | some iv =>
      cases hfu : G.get_iface u iu with
      | none =>
        cases hfv : G.get_iface v iv with
        | none =>
          unfold linkActive at ha
          rw [hiu, hiv] at ha
          try dsimp only at ha
          rw [hfu, hfv] at ha
          exact Bool.noConfusion ha
        | some fv =>
          unfold linkActive at ha
          rw [hiu, hiv] at ha
          try dsimp only at ha
          rw [hfu, hfv] at ha
          exact Bool.noConfusion ha
      | some fu =>
        cases hfv : G.get_iface v iv with
        | none =>
          unfold linkActive at ha
          rw [hiu, hiv] at ha
          try dsimp only at ha
          rw [hfu, hfv] at ha
          exact Bool.noConfusion ha
        | some fv =>
          rw [linkActive_unfold G u v iu iv fu fv hiu hiv hfu hfv] at ha
          rw [Bool.and_eq_true, Bool.and_eq_true, Bool.and_eq_true] at ha
          obtain ⟨⟨⟨ha1, ha2⟩, ha3⟩, ha4⟩ := ha
          refine ⟨iu, iv, fu, fv, rfl, rfl, hfu, hfv, ?_, ?_, ha3, ha4⟩
          · cases hx : fu.is_shutdown
            · rfl
            · rw [hx] at ha1
              exact Bool.noConfusion ha1
          · cases hx : fv.is_shutdown
            · rfl
            · rw [hx] at ha2
              exact Bool.noConfusion ha2

theorem linkActive_mono (lo : String) (G G2 : NetworkGraph) (u v : String)
    (hg : gStep lo G G2) (ha : linkActive G u v = true) : linkActive G2 u v = true := by
  obtain ⟨iu, iv, fu, fv, hiu, hiv, hfu, hfv, hsu, hsv, hnu, hnv⟩ := linkActive_elim G u v ha
  obtain ⟨fu2, hfu2, hsu2, hmu⟩ := hg.iface_mono u iu fu hfu
  obtain ⟨fv2, hfv2, hsv2, hmv⟩ := hg.iface_mono v iv fv hfv
  rw [linkActive_unfold G2 u v iu iv fu2 fv2
    ((get_edge_iface_edges G2 G hg.edges_eq u v).trans hiu)
    ((get_edge_iface_edges G2 G hg.edges_eq v u).trans hiv) hfu2 hfv2]
  rw [hsu2, hsu, hsv2, hsv, notSym_addrMono fu.addr fu2.addr hmu hnu,
    notSym_addrMono fv.addr fv2.addr hmv hnv]
  rfl

theorem linkResolved_mono (lo : String) (G G2 : NetworkGraph) (u v : String)
    (hg : gStep lo G G2) (hr : linkResolved G u v) : linkResolved G2 u v := by
  obtain ⟨iu, iv, au, av, hiu, hiv, hau, hav, hsn, hip⟩ := hr
  obtain ⟨fu, hfu, hfua⟩ := get_iface_addr_elim G u iu _ hau
  obtain ⟨fv, hfv, hfva⟩ := get_iface_addr_elim G v iv _ hav
  obtain ⟨fu2, hfu2, _, hmu⟩ := hg.iface_mono u iu fu hfu
  obtain ⟨fv2, hfv2, _, hmv⟩ := hg.iface_mono v iv fv hfv
  rw [hfua] at hmu
  rw [hfva] at hmv
  refine ⟨iu, iv, au, av,
    (get_edge_iface_edges G2 G hg.edges_eq u v).trans hiu,
    (get_edge_iface_edges G2 G hg.edges_eq v u).trans hiv, ?_, ?_, hsn, hip⟩
  · rw [get_iface_addr_of G2 u iu fu2 hfu2, addrMono_concrete au fu2.addr hmu]
  · rw [get_iface_addr_of G2 v iv fv2 hfv2, addrMono_concrete av fv2.addr hmv]

theorem linkSettled_mono (lo : String) (G G2 : NetworkGraph) (M M2 : Registry) (u v : String)
    (hg : gStep lo G G2) (hM : ∀ e ∈ M, e ∈ M2) (hs : linkSettled G M u v) :
    linkSettled G2 M2 u v := by
  obtain ⟨huv, iu, iv, fu, fv, hiu, hiv, hfu, hfv, hsu, hsv, hres⟩ := hs
  obtain ⟨fu2, hfu2, hsu2, hmu⟩ := hg.iface_mono u iu fu hfu
  obtain ⟨fv2, hfv2, hsv2, hmv⟩ := hg.iface_mono v iv fv hfv
  refine ⟨huv, iu, iv, fu2, fv2,
    (get_edge_iface_edges G2 G hg.edges_eq u v).trans hiu,
    (get_edge_iface_edges G2 G hg.edges_eq v u).trans hiv,
    hfu2, hfv2, hsu2.trans hsu, hsv2.trans hsv, ?_⟩
  rcases hres with ⟨a, b, hau, hav, hsn, hip, hm1, hm2⟩ | ⟨s, hs2⟩ | ⟨s, hs2⟩
  · rw [hau] at hmu
    rw [hav] at hmv
    exact Or.inl ⟨a, b, addrMono_concrete a fu2.addr hmu, addrMono_concrete b fv2.addr hmv,
      hsn, hip, hM _ hm1, hM _ hm2⟩
  · rw [hs2] at hmu
    exact Or.inr (Or.inl ⟨s, addrMono_symbolic s fu2.addr hmu⟩)
  · rw [hs2] at hmv
    exact Or.inr (Or.inr ⟨s, addrMono_symbolic s fv2.addr hmv⟩)

/-! ### The fold over links -/

theorem procLinks_main (lo : String) (full : Bool) (ls : List (String × String))
    (st st2 : SynState) (h : procLinks full ls st = .ok st2) :
    gStep lo st.g st2.g ∧ (∀ e ∈ st.registry, e ∈ st2.registry) ∧
    ((st.registry.map (fun e => e.2)).Nodup → (st2.registry.map (fun e => e.2)).Nodup) ∧
    (∀ p ∈ ls, linkActive st.g p.1 p.2 = true → linkResolved st2.g p.1 p.2) ∧
    (full = true → ∀ p ∈ ls, linkSettled st2.g st2.registry p.1 p.2) := by
  induction ls generalizing st with
  | nil =>
    unfold procLinks at h
    injection h with h
    subst h
    exact ⟨gStep_refl lo st.g, fun _ he => he, fun hn => hn, by simp, fun _ => by simp⟩
  | cons p rest ih =>
    unfold procLinks at h
    cases hp : procLink full st p.1 p.2 with
    | error e =>
      rw [hp] at h
      exact Except.noConfusion h
    | ok st1 =>
      rw [hp] at h
      try dsimp only at h
      obtain ⟨g1, s1, n1, res1, _, set1⟩ := procLink_main lo full st p.1 p.2 st1 hp
      obtain ⟨g2, s2, n2, res2, set2⟩ := ih st1 h
      refine ⟨gStep_trans lo _ _ _ g1 g2, fun e he => s2 _ (s1 _ he), fun hn => n2 (n1 hn),
        ?_, ?_⟩
      · intro q hq hact
        rcases List.mem_cons.mp hq with hq | hq
        · subst hq
          exact linkResolved_mono lo _ _ _ _ g2 (res1 hact)
        · exact res2 q hq (linkActive_mono lo _ _ _ _ g1 hact)
      · intro hfull q hq
        rcases List.mem_cons.mp hq with hq | hq
        · subst hq
          exact linkSettled_mono lo _ _ _ _ _ _ g2 s2 (set1 hfull)
        · exact set2 hfull q hq


/-! ### Node-skeleton transfer lemmas -/

theorem skel_getNode (G G2 : NetworkGraph) (hskel : nodeSkel G2 = nodeSkel G) (n : String) :
    (getNode G2 n).map ndSkel = (getNode G n).map ndSkel := by
  have h1 : aGet (nodeSkel G2) n = (getNode G2 n).map ndSkel := aGet_map G2.nodes ndSkel n
  have h2 : aGet (nodeSkel G) n = (getNode G n).map ndSkel := aGet_map G.nodes ndSkel n
  rw [← h1, ← h2, hskel]

theorem skel_getNode_none (G G2 : NetworkGraph) (hskel : nodeSkel G2 = nodeSkel G) (n : String)
    (h : getNode G n = none) : getNode G2 n = none := by
  have := skel_getNode G G2 hskel n
  rw [h] at this
  exact Option.map_eq_none'.mp this

theorem skel_getNode_some (G G2 : NetworkGraph) (hskel : nodeSkel G2 = nodeSkel G) (n : String)
    (nd2 : NodeData) (h : getNode G2 n = some nd2) :
    ∃ nd, getNode G n = some nd ∧ ndSkel nd2 = ndSkel nd := by
  have hmap := skel_getNode G G2 hskel n
  rw [h] at hmap
  cases hG : getNode G n with
  | none =>
    rw [hG] at hmap
    exact Option.noConfusion hmap
  | some nd =>
    rw [hG] at hmap
    injection hmap with hmap
    exact ⟨nd, rfl, hmap⟩

theorem recNoop_mono (lo : String) (G G2 : NetworkGraph) (p w : String)
    (hg : gStep lo G G2) (h : recNoop G p w) : recNoop G2 p w := by
  rcases h with ⟨i, hi⟩ | hn | hk
  · rcases hg.entry_step p w with he | ⟨he, _⟩
    · exact Or.inl ⟨i, he.trans hi⟩
    · rw [hi] at he
      exact Option.noConfusion he
  · exact Or.inr (Or.inl (skel_getNode_none G G2 hg.skel_eq p hn))
  · right; right
    intro nd2 hnd2
    obtain ⟨nd, hnd, hsk⟩ := skel_getNode_some G G2 hg.skel_eq p nd2 hnd2
    have hkeys : nd2.bgp_neighbors.map Prod.fst = nd.bgp_neighbors.map Prod.fst := by
      have := congrArg (fun t => t.2.2) hsk
      exact this
    exact aGet_none_of_keys nd.bgp_neighbors nd2.bgp_neighbors w hkeys (hk nd hnd)

theorem entry_getD_eq (lo : String) (G G2 : NetworkGraph) (p w : String) (hg : gStep lo G G2) :
    (entryGet G2 p w).getD lo = (entryGet G p w).getD lo := by
  rcases hg.entry_step p w with he | ⟨he1, he2⟩
  · rw [he]
  · rw [he1, he2]
    rfl

theorem sideSettled_mono (lo : String) (G G2 : NetworkGraph) (M M2 : Registry) (w p : String)
    (hg : gStep lo G G2) (hM : ∀ e ∈ M, e ∈ M2) (hs : sideSettled lo G M w p) :
    sideSettled lo G2 M2 w p := by
  rcases hs with h1 | ⟨hnoop, f, hlb, hres⟩
  · exact Or.inl (skel_getNode_none G G2 hg.skel_eq w h1)
  · right
    refine ⟨recNoop_mono lo G G2 p w hg hnoop, ?_⟩
    obtain ⟨f2, hf2, hm⟩ := hg.lb_mono w _ f hlb
    rw [entry_getD_eq lo G G2 p w hg]
    refine ⟨f2, hf2, ?_⟩
    rcases hres with ⟨a, ha, hmem⟩ | ⟨s, hsym⟩
    · rw [ha] at hm
      exact Or.inl ⟨a, addrMono_concrete a f2.addr hm, hM _ hmem⟩
    · rw [hsym] at hm
      exact Or.inr ⟨s, addrMono_symbolic s f2.addr hm⟩

/-! ### The mesh-side lemmas -/

theorem meshSideGo_main (lo : String) (st : SynState) (w p nm : String) (f : Iface)
    (st2 : SynState) (hlb : getLoopback st.g w nm = some f)
    (hpre : (entryGet st.g p w).getD lo = nm)
    (h : meshSideGo st w p nm f = .ok st2) :
    gStep lo st.g st2.g ∧ (∀ e ∈ st.registry, e ∈ st2.registry) ∧
    ((st.registry.map (fun e => e.2)).Nodup → (st2.registry.map (fun e => e.2)).Nodup) ∧
    sideSettled lo st2.g st2.registry w p := by
  have hnm : entryGet st.g p w = none → nm = lo := by
    intro he
    rw [he] at hpre
    exact hpre.symm
  have hgetD : ∀ G2 : NetworkGraph, entryGet G2 p w = entryGet st.g p w ∨
      (entryGet st.g p w = none ∧ entryGet G2 p w = some nm) →
      (entryGet G2 p w).getD lo = nm := by
    rintro G2 (he | ⟨he1, he2⟩)
    · rw [he, hpre]
    · rw [he2]
      rfl
  unfold meshSideGo at h
  cases haf : f.addr with
  | Symbolic s =>
    rw [haf] at h
    try dsimp only at h
    injection h with h
    subst h
    refine ⟨gStep_rec lo st.g p w nm hnm, fun _ he => he, fun hn => hn, ?_⟩
    right
    obtain ⟨hnoop, hstep⟩ := rec_post st.g p w nm
    refine ⟨hnoop, f, ?_, Or.inr ⟨s, haf⟩⟩
    rw [hgetD _ hstep]
    rw [rec_lb st.g p w nm w nm]
    exact hlb
  | Concrete a =>
    rw [haf] at h
    try dsimp only at h
    cases hr : registerPair st.registry (w, nm) a with
    | error e =>
      rw [hr] at h
      exact Except.noConfusion h
    | ok r =>
      rw [hr] at h
      injection h with h
      subst h
      refine ⟨gStep_rec lo st.g p w nm hnm, ?_, ?_, ?_⟩
      · intro e he
        exact registerPair_sub st.registry _ _ r hr _ he
      · intro hn
        exact registerPair_nodup st.registry _ _ r hr hn
      · right
        obtain ⟨hnoop, hstep⟩ := rec_post st.g p w nm
        refine ⟨hnoop, f, ?_, Or.inl ⟨a, haf, ?_⟩⟩
        · rw [hgetD _ hstep]
          rw [rec_lb st.g p w nm w nm]
          exact hlb
        · rw [hgetD _ hstep]
          exact registerPair_mem st.registry _ _ r hr
  | Unset =>
    rw [haf] at h
    try dsimp only at h
    cases hr : registerPair st.registry (w, nm) ⟨blockBase st.pool, 31⟩ with
    | error e =>
      rw [hr] at h
      exact Except.noConfusion h
    | ok r =>
      rw [hr] at h
      injection h with h
      subst h
      have hset : getLoopback (setLoopbackAddrRaw st.g w nm
          (.Concrete ⟨blockBase st.pool, 31⟩)) w nm =
          some ⟨.Concrete ⟨blockBase st.pool, 31⟩, f.is_shutdown, f.description⟩ :=
        setLoopbackAddrRaw_self st.g w nm _ f hlb
      have hent : entryGet (setLoopbackAddrRaw st.g w nm
          (.Concrete ⟨blockBase st.pool, 31⟩)) p w = entryGet st.g p w :=
        setLoopbackAddrRaw_entry st.g w nm p w _
      have hnm2 : entryGet (setLoopbackAddrRaw st.g w nm
          (.Concrete ⟨blockBase st.pool, 31⟩)) p w = none → nm = lo := by
        intro he
        exact hnm (hent.symm.trans he)
      refine ⟨gStep_trans lo _ _ _
        (gStep_setLoopbackAddrRaw lo st.g w nm f hlb haf _)
        (gStep_rec lo _ p w nm hnm2), ?_, ?_, ?_⟩
      · intro e he
        exact registerPair_sub st.registry _ _ r hr _ he
      · intro hn
        exact registerPair_nodup st.registry _ _ r hr hn
      · right
        obtain ⟨hnoop, hstep⟩ := rec_post (setLoopbackAddrRaw st.g w nm
          (.Concrete ⟨blockBase st.pool, 31⟩)) p w nm
        have hstep2 : entryGet (recordNeighborIface (setLoopbackAddrRaw st.g w nm
            (.Concrete ⟨blockBase st.pool, 31⟩)) p w nm) p w = entryGet st.g p w ∨
            (entryGet st.g p w = none ∧
              entryGet (recordNeighborIface (setLoopbackAddrRaw st.g w nm
                (.Concrete ⟨blockBase st.pool, 31⟩)) p w nm) p w = some nm) := by
          rcases hstep with he | ⟨he1, he2⟩
          · exact Or.inl (he.trans hent)
          · exact Or.inr ⟨hent.symm.trans he1, he2⟩
        refine ⟨hnoop, ⟨.Concrete ⟨blockBase st.pool, 31⟩, f.is_shutdown, f.description⟩,
          ?_, Or.inl ⟨⟨blockBase st.pool, 31⟩, rfl, ?_⟩⟩
        · rw [hgetD _ hstep2]
          rw [rec_lb _ p w nm w nm]
          exact hset
        · rw [hgetD _ hstep2]
          exact registerPair_mem st.registry _ _ r hr

theorem meshSide_main (lo : String) (st : SynState) (w p : String) (st2 : SynState)
    (h : meshSide lo st w p = .ok st2) :
    gStep lo st.g st2.g ∧ (∀ e ∈ st.registry, e ∈ st2.registry) ∧
    ((st.registry.map (fun e => e.2)).Nodup → (st2.registry.map (fun e => e.2)).Nodup) ∧
    sideSettled lo st2.g st2.registry w p := by
  unfold meshSide at h
  cases hg : getNode st.g w with
  | none =>
    rw [hg] at h
    try dsimp only at h
    injection h with h
    subst h
    exact ⟨gStep_refl lo st.g, fun _ he => he, fun hn => hn, Or.inl hg⟩
  | some nd =>
    rw [hg] at h
    try dsimp only at h
    cases hf : aGet nd.loopbacks ((entryGet st.g p w).getD lo) with
    | some f =>
      rw [hf] at h
      try dsimp only at h
      have hlb : getLoopback st.g w ((entryGet st.g p w).getD lo) = some f := by
        rw [getLoopback_some st.g w _ nd hg]
        exact hf
      exact meshSideGo_main lo st w p _ f st2 hlb rfl h
    | none =>
      rw [hf] at h
      try dsimp only at h
      have hlb : getLoopback (addLoopbackRaw st.g w ((entryGet st.g p w).getD lo)) w
          ((entryGet st.g p w).getD lo) = some ⟨.Unset, false, ""⟩ :=
        addLoopbackRaw_lb_new st.g w _ nd hg hf
      have hpre : (entryGet (addLoopbackRaw st.g w ((entryGet st.g p w).getD lo)) p w).getD lo =
          (entryGet st.g p w).getD lo := by
        rw [addLoopbackRaw_entry st.g w _ p w]
      obtain ⟨hg2, hs2, hn2, hset2⟩ := meshSideGo_main lo
        ⟨addLoopbackRaw st.g w ((entryGet st.g p w).getD lo), st.registry, st.pool⟩
        w p _ ⟨.Unset, false, ""⟩ st2 hlb hpre h
      exact ⟨gStep_trans lo _ _ _ (gStep_addLoopbackRaw lo st.g w _) hg2, hs2, hn2, hset2⟩

theorem meshEnsure_main (lo : String) (st : SynState) (u v : String) (st2 : SynState)
    (h : meshEnsure lo st u v = .ok st2) :
    gStep lo st.g st2.g ∧ (∀ e ∈ st.registry, e ∈ st2.registry) ∧
    ((st.registry.map (fun e => e.2)).Nodup → (st2.registry.map (fun e => e.2)).Nodup) ∧
    sideSettled lo st2.g st2.registry u v ∧ sideSettled lo st2.g st2.registry v u := by
  unfold meshEnsure at h
  cases h1 : meshSide lo st u v with
  | error e =>
    rw [h1] at h
    exact Except.noConfusion h
  | ok st1 =>
    rw [h1] at h
    try dsimp only at h
    obtain ⟨g1, s1, n1, set1⟩ := meshSide_main lo st u v st1 h1
    obtain ⟨g2, s2, n2, set2⟩ := meshSide_main lo st1 v u st2 h
    exact ⟨gStep_trans lo _ _ _ g1 g2, fun e he => s2 _ (s1 _ he), fun hn => n2 (n1 hn),
      sideSettled_mono lo _ _ _ _ u v g2 s2 set1, set2⟩

theorem meshRun_main (lo : String) (ps : List (String × String)) (st st2 : SynState)
    (h : meshRun lo ps st = .ok st2) :
    gStep lo st.g st2.g ∧ (∀ e ∈ st.registry, e ∈ st2.registry) ∧
    ((st.registry.map (fun e => e.2)).Nodup → (st2.registry.map (fun e => e.2)).Nodup) ∧
    (∀ q ∈ ps, sideSettled lo st2.g st2.registry q.1 q.2 ∧
      sideSettled lo st2.g st2.registry q.2 q.1) := by
  induction ps generalizing st with
  | nil =>
    unfold meshRun at h
    injection h with h
    subst h
    exact ⟨gStep_refl lo st.g, fun _ he => he, fun hn => hn, by simp⟩
  | cons q rest ih =>
    unfold meshRun at h
    cases h1 : meshEnsure lo st q.1 q.2 with
    | error e =>
      rw [h1] at h
      exact Except.noConfusion h
    | ok st1 =>
      rw [h1] at h
      try dsimp only at h
      obtain ⟨g1, s1, n1, setA, setB⟩ := meshEnsure_main lo st q.1 q.2 st1 h1
      obtain ⟨g2, s2, n2, sets⟩ := ih st1 h
      refine ⟨gStep_trans lo _ _ _ g1 g2, fun e he => s2 _ (s1 _ he), fun hn => n2 (n1 hn), ?_⟩
      intro q2 hq2
      rcases List.mem_cons.mp hq2 with hq2 | hq2
      · subst hq2
        exact ⟨sideSettled_mono lo _ _ _ _ _ _ g2 s2 setA,
          sideSettled_mono lo _ _ _ _ _ _ g2 s2 setB⟩
      · exact sets q2 hq2


/-! ### Second-run lemmas: a settled graph is processed without mutation -/

theorem procLink_run2 (st : SynState) (M : Registry) (u v : String)
    (hs : linkSettled st.g M u v) (hsub : ∀ e ∈ st.registry, e ∈ M)
    (hn : (M.map (fun e => e.2)).Nodup) :
    ∃ r, procLink true st u v = .ok ⟨st.g, r, st.pool⟩ ∧ ∀ e ∈ r, e ∈ M := by
  obtain ⟨huv, iu, iv, fu, fv, hiu, hiv, hfu, hfv, hsu, hsv, hres⟩ := hs
  unfold procLink
  rw [if_neg huv, hiu, hiv]
  try dsimp only
  rw [hfu, hfv]
  try dsimp only
  rw [hsu, hsv]
  rw [if_neg (by simp : ¬((false || false) = true))]
  unfold resolveLink
  rcases hres with ⟨a, b, hau, hav, hsn, hip, hm1, hm2⟩ | ⟨s, hsym⟩ | ⟨s, hsym⟩
  · rw [hau, hav]
    try dsimp only
    rw [if_pos hsn, if_neg hip]
    obtain ⟨r1, hr1, hsub1⟩ := registerPair_master M st.registry (u, iu) a hm1 hsub hn
    obtain ⟨r2, hr2, hsub2⟩ := registerPair_master M r1 (v, iv) b hm2 hsub1 hn
    exact ⟨r2, regTwo_intro st st.g st.pool _ a _ b r1 r2 hr1 hr2, hsub2⟩
  · rw [hsym]
    cases hav : fv.addr with
    | Symbolic s2 => exact ⟨st.registry, rfl, hsub⟩
    | Concrete b => exact ⟨st.registry, rfl, hsub⟩
    | Unset => exact ⟨st.registry, rfl, hsub⟩
  · rw [hsym]
    cases hau : fu.addr with
    | Symbolic s2 => exact ⟨st.registry, rfl, hsub⟩
    | Concrete a => exact ⟨st.registry, rfl, hsub⟩
    | Unset => exact ⟨st.registry, rfl, hsub⟩

theorem procLinks_run2 (ls : List (String × String)) (G : NetworkGraph) (M : Registry)
    (pool : Nat) (hset : ∀ p ∈ ls, linkSettled G M p.1 p.2)
    (hn : (M.map (fun e => e.2)).Nodup) :
    ∀ reg, (∀ e ∈ reg, e ∈ M) →
    ∃ r, procLinks true ls ⟨G, reg, pool⟩ = .ok ⟨G, r, pool⟩ ∧ ∀ e ∈ r, e ∈ M := by
  induction ls with
  | nil =>
    intro reg hsub
    exact ⟨reg, rfl, hsub⟩
  | cons p rest ih =>
    intro reg hsub
    obtain ⟨r1, hr1, hsub1⟩ := procLink_run2 ⟨G, reg, pool⟩ M p.1 p.2
      (hset p (List.mem_cons_self p rest)) hsub hn
    obtain ⟨r2, hr2, hsub2⟩ := ih (fun q hq => hset q (List.mem_cons_of_mem p hq)) r1 hsub1
    unfold procLinks
    rw [hr1]
    try dsimp only
    exact ⟨r2, hr2, hsub2⟩

theorem meshSide_run2 (lo : String) (st : SynState) (M : Registry) (w p : String)
    (hs : sideSettled lo st.g M w p) (hsub : ∀ e ∈ st.registry, e ∈ M)
    (hn : (M.map (fun e => e.2)).Nodup) :
    ∃ r, meshSide lo st w p = .ok ⟨st.g, r, st.pool⟩ ∧ ∀ e ∈ r, e ∈ M := by
  unfold meshSide
  rcases hs with h1 | ⟨hnoop, f, hlb, hres⟩
  · rw [h1]
    exact ⟨st.registry, rfl, hsub⟩
  · cases hg : getNode st.g w with
    | none =>
      rw [getLoopback_none st.g w _ hg] at hlb
      exact Option.noConfusion hlb
    | some nd =>
      try dsimp only
      have hf : aGet nd.loopbacks ((entryGet st.g p w).getD lo) = some f := by
        rw [getLoopback_some st.g w _ nd hg] at hlb
        exact hlb
      rw [hf]
      try dsimp only
      unfold meshSideGo
      rcases hres with ⟨a, haf, hmem⟩ | ⟨s, haf⟩
      · rw [haf]
        try dsimp only
        obtain ⟨r, hr, hsubr⟩ := registerPair_master M st.registry _ a hmem hsub hn
        rw [hr]
        try dsimp only
        rw [rec_noop_of st.g p w _ hnoop]
        exact ⟨r, rfl, hsubr⟩
      · rw [haf]
        try dsimp only
        rw [rec_noop_of st.g p w _ hnoop]
        exact ⟨st.registry, rfl, hsub⟩

theorem meshEnsure_run2 (lo : String) (st : SynState) (M : Registry) (u v : String)
    (hsA : sideSettled lo st.g M u v) (hsB : sideSettled lo st.g M v u)
    (hsub : ∀ e ∈ st.registry, e ∈ M) (hn : (M.map (fun e => e.2)).Nodup) :
    ∃ r, meshEnsure lo st u v = .ok ⟨st.g, r, st.pool⟩ ∧ ∀ e ∈ r, e ∈ M := by
  obtain ⟨r1, h1, hsub1⟩ := meshSide_run2 lo st M u v hsA hsub hn
  obtain ⟨r2, h2, hsub2⟩ := meshSide_run2 lo ⟨st.g, r1, st.pool⟩ M v u hsB hsub1 hn
  unfold meshEnsure
  rw [h1]
  try dsimp only
  exact ⟨r2, h2, hsub2⟩

theorem meshRun_run2 (lo : String) (ps : List (String × String)) (G : NetworkGraph)
    (M : Registry) (pool : Nat)
    (hset : ∀ q ∈ ps, sideSettled lo G M q.1 q.2 ∧ sideSettled lo G M q.2 q.1)
    (hn : (M.map (fun e => e.2)).Nodup) :
    ∀ reg, (∀ e ∈ reg, e ∈ M) →
    ∃ r, meshRun lo ps ⟨G, reg, pool⟩ = .ok ⟨G, r, pool⟩ ∧ ∀ e ∈ r, e ∈ M := by
  induction ps with
  | nil =>
    intro reg hsub
    exact ⟨reg, rfl, hsub⟩
  | cons q rest ih =>
    intro reg hsub
    obtain ⟨r1, h1, hsub1⟩ := meshEnsure_run2 lo ⟨G, reg, pool⟩ M q.1 q.2
      (hset q (List.mem_cons_self q rest)).1 (hset q (List.mem_cons_self q rest)).2 hsub hn
    obtain ⟨r2, h2, hsub2⟩ := ih (fun x hx => hset x (List.mem_cons_of_mem q hx)) r1 hsub1
    unfold meshRun
    rw [h1]
    try dsimp only
    exact ⟨r2, h2, hsub2⟩


/-! ### Top-level synthesizer facts -/

theorem linkList_edges (G G2 : NetworkGraph) (h : G2.edges = G.edges) :
    linkList G2 = linkList G := by
  unfold linkList edgeSkel
  rw [h]

theorem meshPairs_eq (G G2 : NetworkGraph) (hskel : nodeSkel G2 = nodeSkel G)
    (hedges : G2.edges = G.edges) : meshPairs G2 = meshPairs G := by
  unfold meshPairs edgeSkel
  rw [hskel, hedges]

theorem synthesize_main (lo : String) (full : Bool) (g : NetworkGraph) (st1 : SynState)
    (h : synthesize g full lo = .ok st1) :
    gStep lo g st1.g ∧ (st1.registry.map (fun e => e.2)).Nodup ∧
    (∀ p ∈ linkList g, linkActive g p.1 p.2 = true → linkResolved st1.g p.1 p.2) ∧
    (full = true →
      (∀ p ∈ linkList g, linkSettled st1.g st1.registry p.1 p.2) ∧
      (∀ q ∈ meshPairs st1.g, sideSettled lo st1.g st1.registry q.1 q.2 ∧
        sideSettled lo st1.g st1.registry q.2 q.1)) := by
  unfold synthesize at h
  cases h1 : procLinks full (linkList g) ⟨g, [], 0⟩ with
  | error e =>
    rw [h1] at h
    exact Except.noConfusion h
  | ok stm =>
    rw [h1] at h
    try dsimp only at h
    obtain ⟨g1, _, n1, res1, set1⟩ := procLinks_main lo full (linkList g) ⟨g, [], 0⟩ stm h1
    cases full with
    | false =>
      injection h with h
      subst h
      refine ⟨g1, n1 (by simp), res1, ?_⟩
      intro hfalse
      exact Bool.noConfusion hfalse
    | true =>
      obtain ⟨g2, s2, n2, sets2⟩ := meshRun_main lo (meshPairs stm.g) stm st1 h
      refine ⟨gStep_trans lo _ _ _ g1 g2, n2 (n1 (by simp)), ?_, ?_⟩
      · intro p hp hact
        exact linkResolved_mono lo _ _ _ _ g2 (res1 p hp hact)
      · intro _
        constructor
        · intro p hp
          exact linkSettled_mono lo _ _ _ _ _ _ g2 s2 (set1 rfl p hp)
        · have hpairs : meshPairs st1.g = meshPairs stm.g :=
            meshPairs_eq stm.g st1.g g2.skel_eq g2.edges_eq
          intro q hq
          rw [hpairs] at hq
          exact sets2 q hq

/-- Re-running full synthesis on an already fully synthesized graph
succeeds and leaves the graph untouched. -/
theorem synthesize_idem (g : NetworkGraph) (lo : String) (st1 : SynState)
    (h : synthesize g true lo = .ok st1) :
    ∃ st2, synthesize st1.g true lo = .ok st2 ∧ st2.g = st1.g := by
  obtain ⟨gs, hnodup, _, hsettled⟩ := synthesize_main lo true g st1 h
  obtain ⟨hlinks, hpairs⟩ := hsettled rfl
  have hll : linkList st1.g = linkList g := linkList_edges g st1.g gs.edges_eq
  obtain ⟨r1, hr1, hsub1⟩ :=
    procLinks_run2 (linkList g) st1.g st1.registry 0 hlinks hnodup [] (by simp)
  obtain ⟨r2, hr2, _⟩ :=
    meshRun_run2 lo (meshPairs st1.g) st1.g st1.registry 0 hpairs hnodup r1 hsub1
  refine ⟨⟨st1.g, r2, 0⟩, ?_, rfl⟩
  unfold synthesize
  rw [hll, hr1]
  try dsimp only
  exact hr2


theorem aGet_none_keys_not_mem {α β : Type} [DecidableEq α] (l : List (α × β)) (k : α)
    (h : aGet l k = none) : ∀ e ∈ l, e.1 ≠ k := by
  induction l with
  | nil => simp
  | cons e0 rest ih =>
    obtain ⟨k1, v1⟩ := e0
    by_cases hk : k1 = k
    · simp [aGet, hk] at h
    · simp [aGet, hk] at h
      intro e he
      rcases List.mem_cons.mp he with he | he
      · rw [he]
        exact hk
      · exact ih h e he

theorem sameNetwork_symm (a b : IpInterface) (h : sameNetwork a b) : sameNetwork b a :=
  ⟨h.1.symm, h.2.symm⟩

theorem linkActive_symm (g : NetworkGraph) (u v : String) (h : linkActive g u v = true) :
    linkActive g v u = true := by
  obtain ⟨iu, iv, fu, fv, hiu, hiv, hfu, hfv, hsu, hsv, hnu, hnv⟩ := linkActive_elim g u v h
  rw [linkActive_unfold g v u iv iu fv fu hiv hiu hfv hfu, hsv, hsu, hnv, hnu]
  rfl

theorem linkResolved_symm (g : NetworkGraph) (u v : String) (h : linkResolved g u v) :
    linkResolved g v u := by
  obtain ⟨iu, iv, au, av, hiu, hiv, hau, hav, hsn, hip⟩ := h
  exact ⟨iv, iu, av, au, hiv, hiu, hav, hau, sameNetwork_symm au av hsn, fun hh => hip hh.symm⟩

/-! ## Claim theorems -/

/-- C1: for every router/peer link (u, v) that a successful synthesize call
resolves (its two directed edges carry bound, existing interfaces, neither
endpoint is shut down and neither is Symbolic), the two endpoint interface
addresses lie in the same network and their host addresses differ. -/
theorem tekton_c1 (g : NetworkGraph) (full : Bool) (lo : String) (st1 : SynState)
    (u v : String) (h : synthesize g full lo = .ok st1) (hmem : (u, v) ∈ linkList g)
    (hact : linkActive g u v = true) : linkResolved st1.g u v :=
  (synthesize_main lo full g st1 h).2.2.1 (u, v) hmem hact

/-- Witness for C1 on the graph of test_correct_concrete. -/
theorem tekton_c1_witness :
    linkResolved (orState (synthesize okGraph true "lo100")).g "R1" "R2" :=
  tekton_c1 okGraph true "lo100" (orState (synthesize okGraph true "lo100")) "R1" "R2"
    rfl (by decide) (by decide)

/-- C2 counterexample: a successful synthesize(full := true) call can leave
two distinct (node, interface) pairs of the graph holding one and the same
concrete address, when one of the interfaces is never bound to a processed
link: the synthesizer only registers and checks the pairs it touches. -/
theorem tekton_c2_counterexample :
    (synthesize extraIfaceGraph true "lo100").isOk = true ∧
    (orState (synthesize extraIfaceGraph true "lo100")).g.get_iface_addr "R1" "Fa0/1" =
      some (.Concrete addr2) ∧
    (orState (synthesize extraIfaceGraph true "lo100")).g.get_iface_addr "R2" "Fa0/0" =
      some (.Concrete addr2) ∧
    ("R1", "Fa0/1") ≠ (("R2", "Fa0/0") : String × String) :=
  ⟨rfl, rfl, rfl, by decide⟩

/-- C2 (amended): after every successful synthesize call the global registry
of finalized (node, interface) to address pairs contains no duplicate
address; interfaces the call never examines are not covered. -/
theorem tekton_c2 (g : NetworkGraph) (full : Bool) (lo : String) (st1 : SynState)
    (h : synthesize g full lo = .ok st1) :
    (st1.registry.map (fun e => e.2)).Nodup :=
  (synthesize_main lo full g st1 h).2.1

/-- Witness for C2 (amended) on the graph of test_correct_concrete. -/
theorem tekton_c2_witness :
    ((orState (synthesize okGraph true "lo100")).registry.map (fun e => e.2)).Nodup :=
  tekton_c2 okGraph true "lo100" (orState (synthesize okGraph true "lo100")) rfl

/-- C3: with one link pre-set to 192.168.0.1/24 and 192.168.0.2/25,
synthesize(full := true) fails with NotValidSubnetsError
(tests/test_connected.py test_wrong_subnets). -/
theorem tekton_c3 :
    (linkSetupE twoNodesE (.Concrete addr1) (.Concrete addr2q) false false).isOk = true ∧
    synthesize wrongSubnetsGraph true "lo100" = .error .NotValidSubnetsError :=
  ⟨rfl, rfl⟩

/-- C4: with both endpoints of one link pre-set to the identical
192.168.0.1/24, synthesize(full := true) fails with DuplicateAddressError,
not NotValidSubnetsError (tests/test_connected.py test_duplicate_address). -/
theorem tekton_c4 :
    (linkSetupE twoNodesE (.Concrete addr1) (.Concrete addr1) false false).isOk = true ∧
    synthesize dupAddrGraph true "lo100" = .error .DuplicateAddressError :=
  ⟨rfl, rfl⟩

/-- C5: on the test_shutdown topology, with R1's link interface shut down
and carrying an arbitrary address value (Unset, Concrete or Symbolic) and
R2's interface concrete, synthesize(full := false) succeeds and leaves the
whole graph, in particular the shutdown interface's address, unchanged,
while synthesize(full := true) on the same graph fails with
InterfaceIsDownError. -/
theorem tekton_c5 (a : AddrValue) :
    ∃ g, shutdownGraphE a = .ok g ∧
      (∃ st, synthesize g false "lo100" = .ok st ∧ st.g = g) ∧
      synthesize g true "lo100" = .error .InterfaceIsDownError :=
  ⟨_, rfl, ⟨_, rfl, rfl⟩, rfl⟩

/-- C6: on every link the synthesizer resolves whose one endpoint starts
Concrete while the other starts Unset — the link entering the walk in
either orientation — a successful run gives the Unset endpoint a Concrete
address in the very network of the Concrete endpoint (so the subnet is
derived from the Concrete side), with a distinct host. -/
theorem tekton_c6 (g : NetworkGraph) (full : Bool) (lo : String) (st1 : SynState)
    (u v iu iv : String) (a : IpInterface)
    (h : synthesize g full lo = .ok st1)
    (hmem : (u, v) ∈ linkList g ∨ (v, u) ∈ linkList g)
    (hact : linkActive g u v = true)
    (hiu : g.get_edge_iface u v = some iu) (hiv : g.get_edge_iface v u = some iv)
    (hau : g.get_iface_addr u iu = some (.Concrete a))
    (hav : g.get_iface_addr v iv = some .Unset) :
    ∃ b, st1.g.get_iface_addr v iv = some (.Concrete b) ∧ sameNetwork a b ∧ a.ip ≠ b.ip := by
  obtain ⟨gs, _, hres, _⟩ := synthesize_main lo full g st1 h
  have hresolved : linkResolved st1.g u v := by
    rcases hmem with hmem | hmem
    · exact hres (u, v) hmem hact
    · exact linkResolved_symm st1.g v u (hres (v, u) hmem (linkActive_symm g u v hact))
  obtain ⟨iu2, iv2, au, av, hiu2, hiv2, hau2, hav2, hsn, hip⟩ := hresolved
  have hiu3 : st1.g.get_edge_iface u v = some iu :=
    (get_edge_iface_edges st1.g g gs.edges_eq u v).trans hiu
  have hiv3 : st1.g.get_edge_iface v u = some iv :=
    (get_edge_iface_edges st1.g g gs.edges_eq v u).trans hiv
  have heiu : iu2 = iu := Option.some.inj (hiu2.symm.trans hiu3)
  have heiv : iv2 = iv := Option.some.inj (hiv2.symm.trans hiv3)
  rw [heiu] at hau2
  rw [heiv] at hav2
  obtain ⟨fu, hfu, hfua⟩ := get_iface_addr_elim g u iu _ hau
  obtain ⟨fu2, hfu2, _, hmu⟩ := gs.iface_mono u iu fu hfu
  rw [hfua] at hmu
  have hfu2a : st1.g.get_iface_addr u iu = some (.Concrete a) := by
    rw [get_iface_addr_of st1.g u iu fu2 hfu2, addrMono_concrete a fu2.addr hmu]
  have hau3 : au = a := by
    have h2 := hau2.symm.trans hfu2a
    injection h2 with h3
    injection h3 with h4
  subst hau3
  exact ⟨av, hav2, hsn, hip⟩

/-- Witness for C6 on the graph of test_one_side_concrete and on its
mirror, where the link's first directed edge starts at the Unset endpoint. -/
theorem tekton_c6_witness :
    (∃ b, (orState (synthesize oneSideGraph true "lo100")).g.get_iface_addr "R2" "Fa0/0" =
      some (.Concrete b) ∧ sameNetwork addr1 b ∧ addr1.ip ≠ b.ip) ∧
    (∃ b, (orState (synthesize oneSideGraphR true "lo100")).g.get_iface_addr "R1" "Fa0/0" =
      some (.Concrete b) ∧ sameNetwork addr1 b ∧ addr1.ip ≠ b.ip) :=
  ⟨tekton_c6 oneSideGraph true "lo100" (orState (synthesize oneSideGraph true "lo100"))
      "R1" "R2" "Fa0/0" "Fa0/0" addr1 rfl (Or.inl (by decide)) (by decide) rfl rfl rfl rfl,
    tekton_c6 oneSideGraphR true "lo100" (orState (synthesize oneSideGraphR true "lo100"))
      "R2" "R1" "Fa0/0" "Fa0/0" addr1 rfl (Or.inr (by decide)) (by decide) rfl rfl rfl rfl⟩

/-- C7: running synthesize(full := true) again on a graph on which a
synthesize(full := true) call already succeeded returns success and leaves
every node, edge and interface attribute of the graph unchanged. -/
theorem tekton_c7 (g : NetworkGraph) (lo : String) (st1 : SynState)
    (h : synthesize g true lo = .ok st1) :
    ∃ st2, synthesize st1.g true lo = .ok st2 ∧ st2.g = st1.g :=
  synthesize_idem g lo st1 h

/-- Witness for C7 on the graph of test_correct_concrete. -/
theorem tekton_c7_witness :
    ∃ st2, synthesize (orState (synthesize okGraph true "lo100")).g true "lo100" = .ok st2 ∧
      st2.g = (orState (synthesize okGraph true "lo100")).g :=
  tekton_c7 okGraph "lo100" (orState (synthesize okGraph true "lo100")) rfl

/-- C8 counterexample: on the test_router_id sequence the stored router ID
is the concrete 123, and setting the different value 1.1.1.1 (16843009)
succeeds and overwrites it, instead of failing with ValueAlreadySetError
and leaving 123 in place (tests/test_graph.py test_router_id). -/
theorem tekton_c8_counterexample :
    ridGraph.get_bgp_router_id "R1" = some (.Concrete 123) ∧
    ∃ g2, ridGraph.set_bgp_router_id "R1" (.Concrete 16843009) = .ok g2 ∧
      g2.get_bgp_router_id "R1" = some (.Concrete 16843009) :=
  ⟨rfl, orEmpty (ridGraph.set_bgp_router_id "R1" (.Concrete 16843009)), rfl, rfl⟩

/-- C8 (amended): the BGP router-ID setter does not follow the write-once
discipline: on any existing node it succeeds unconditionally and
overwrites, and the getter returns the last value set; it never raises
ValueAlreadySetError. -/
theorem tekton_c8 (g : NetworkGraph) (n : String) (nd : NodeData) (v : RIdVal)
    (h : getNode g n = some nd) :
    ∃ g2, g.set_bgp_router_id n v = .ok g2 ∧ g2.get_bgp_router_id n = some v := by
  refine ⟨updNode g n (fun nd => nd.withRId (some v)), ?_, ?_⟩
  · unfold NetworkGraph.set_bgp_router_id
    rw [h]
  · unfold NetworkGraph.get_bgp_router_id
    rw [getNode_updNode_self g n _ nd h]
    rfl

/-- Witness for C8 (amended) on the test_router_id graph. -/
theorem tekton_c8_witness :
    ∃ g2, ridGraph.set_bgp_router_id "R1" (.Concrete 7) = .ok g2 ∧
      g2.get_bgp_router_id "R1" = some (.Concrete 7) :=
  tekton_c8 ridGraph "R1" _ (.Concrete 7) rfl

/-- C9: a node created by add_peer satisfies is_peer and is_router, is not
a local router, never appears in local_routers_iter, and is never either
component of an iBGP mesh-completion pair. -/
theorem tekton_c9 (g : NetworkGraph) (n : String) (g2 : NetworkGraph)
    (h : g.add_peer n = .ok g2) :
    g2.is_peer n = true ∧ g2.is_router n = true ∧ g2.is_local_router n = false ∧
    n ∉ g2.local_routers_iter ∧ ∀ q ∈ meshPairs g2, q.1 ≠ n ∧ q.2 ≠ n := by
  unfold NetworkGraph.add_peer NetworkGraph.add_node at h
  cases hg : getNode g n with
  | some nd =>
    rw [hg] at h
    exact Except.noConfusion h
  | none =>
    rw [hg] at h
    try dsimp only at h
    injection h with h
    subst h
    have hkeys : ∀ e ∈ g.nodes, e.1 ≠ n := aGet_none_keys_not_mem g.nodes n hg
    have hgn : getNode (⟨g.nodes ++ [(n, newNode .PEER)], g.edges⟩ : NetworkGraph) n =
        some (newNode .PEER) := by
      show aGet (g.nodes ++ [(n, newNode .PEER)]) n = _
      rw [aGet_append_none g.nodes _ n hg]
      simp [aGet]
    refine ⟨?_, ?_, ?_, ?_, ?_⟩
    · unfold NetworkGraph.is_peer
      rw [hgn]
      rfl
    · unfold NetworkGraph.is_router
      rw [hgn]
      rfl
    · unfold NetworkGraph.is_local_router
      rw [hgn]
      rfl
    · intro hmem
      unfold NetworkGraph.local_routers_iter at hmem
      obtain ⟨e, he, he1⟩ := List.mem_map.mp hmem
      obtain ⟨heMem, heLoc⟩ := List.mem_filter.mp he
      rcases List.mem_append.mp heMem with h1 | h1
      · exact hkeys e h1 he1
      · simp at h1
        rw [h1] at heLoc
        exact Bool.noConfusion heLoc
    · intro q hq
      unfold meshPairs meshPairsSk at hq
      obtain ⟨e, he, hq2⟩ := List.mem_flatMap.mp hq
      obtain ⟨heMem, heLoc⟩ := List.mem_filter.mp he
      obtain ⟨v, hv, hvq⟩ := List.mem_map.mp hq2
      obtain ⟨hv1, hv2⟩ := List.mem_filter.mp hv
      rw [← hvq]
      constructor
      · intro h1
        have h1e : e.1 = n := h1
        have heMem2 : e ∈ g.nodes.map (fun e => (e.1, ndSkel e.2)) ++
            [(n, newNode .PEER)].map (fun e => (e.1, ndSkel e.2)) := by
          rw [← List.map_append]
          exact heMem
        rcases List.mem_append.mp heMem2 with h2 | h2
        · obtain ⟨e0, he0, he0e⟩ := List.mem_map.mp h2
          apply hkeys e0 he0
          rw [← he0e] at h1e
          exact h1e
        · simp at h2
          rw [h2] at heLoc
          exact Bool.noConfusion heLoc
      · intro h1
        have h1v : v = n := h1
        have hnone : aGet (g.nodes.map (fun e => (e.1, ndSkel e.2))) n = none := by
          rw [aGet_map g.nodes ndSkel n]
          have hg2 : aGet g.nodes n = none := hg
          rw [hg2]
          rfl
        have haGet : aGet (nodeSkel (⟨g.nodes ++ [(n, newNode .PEER)], g.edges⟩ :
            NetworkGraph)) n = some (ndSkel (newNode .PEER)) := by
          show aGet ((g.nodes ++ [(n, newNode .PEER)]).map (fun e => (e.1, ndSkel e.2))) n = _
          rw [List.map_append]
          rw [aGet_append_none _ _ n hnone]
          simp [aGet]
        rw [h1v] at hv2
        unfold meshCondSk at hv2
        rw [haGet] at hv2
        exact Bool.noConfusion hv2

/-- Witness for C9: add_peer on the empty graph. -/
theorem tekton_c9_witness :
    (orEmpty (NetworkGraph.empty.add_peer "PEER1")).is_peer "PEER1" = true ∧
    (orEmpty (NetworkGraph.empty.add_peer "PEER1")).is_router "PEER1" = true ∧
    (orEmpty (NetworkGraph.empty.add_peer "PEER1")).is_local_router "PEER1" = false ∧
    "PEER1" ∉ (orEmpty (NetworkGraph.empty.add_peer "PEER1")).local_routers_iter ∧
    ∀ q ∈ meshPairs (orEmpty (NetworkGraph.empty.add_peer "PEER1")),
      q.1 ≠ "PEER1" ∧ q.2 ≠ "PEER1" :=
  tekton_c9 NetworkGraph.empty "PEER1" (orEmpty (NetworkGraph.empty.add_peer "PEER1")) rfl

/-- C10: the generic add_node without a vertex-type attribute and the
generic add_edge without an edge-type attribute always raise ValueError,
on every graph; nodes and edges enter only through the kind-specific
constructors or with the type given explicitly. -/
theorem tekton_c10 (g : NetworkGraph) (n u v : String) :
    g.add_node n none = .error .ValueError ∧ g.add_edge u v none = .error .ValueError :=
  ⟨rfl, rfl⟩

end Tekton
